import Mathlib

/-!
Lead-image resolvers of GoOse (`images.go`).

A shallow embedding of `images.go`: the rule table and `score`, the page-scan
resolver `WebPageResolver` with its two selection passes, and the
social-metadata resolver `OpenGraphResolver`.

Modelling conventions.

* A Go `string` is a Lean `String` (attribute values are taken to be valid
  UTF-8, so byte-wise `strings.HasPrefix` / `strings.Contains` with an ASCII
  needle agree with the character-wise versions used here).
* Go `int` is the 64-bit two's-complement integer: values are `Int`, and the
  one multiplication of the source is wrapped by `wrapInt`.
* A parsed document is the list of its elements in document order; each
  element carries its tag name and its attribute list.  The calls made on
  goquery (`Find`, `Union`, `Each`, `Attr`) are modelled on that list.
* The regular expressions of the source are values of `Re`, matched by
  Brzozowski derivatives; `.` is the wildcard of Go's `regexp` (any character
  but a newline), `(?i)` is simple case folding.
-/

namespace Goose

/-! ## Strings -/

/-- Go `strings.HasPrefix s p` -/
def HasPrefix (s p : String) : Bool :=
  p.data.isPrefixOf s.data

/-- Substring test on character lists: some suffix of `s` starts with `sub` -/
def containsChars (sub : List Char) : List Char → Bool
  | [] => sub.isEmpty
  | c :: cs => sub.isPrefixOf (c :: cs) || containsChars sub cs

/-- Go `strings.Contains s sub` -/
def Contains (s sub : String) : Bool :=
  containsChars sub.data s.data

/-! ## Integers: `int` and `strconv.Atoi` -/

/-- Largest value of Go `int` (64-bit) -/
def maxInt : Int := 2 ^ 63 - 1

/-- Smallest value of Go `int` (64-bit) -/
def minInt : Int := -(2 ^ 63)

/-- Two's-complement wrap-around of an integer result into Go `int` -/
def wrapInt (x : Int) : Int :=
  (x + 2 ^ 63) % 2 ^ 64 - 2 ^ 63

/-- Value of a decimal digit, `none` for any other character -/
def digitVal (c : Char) : Option Nat :=
  if 48 ≤ c.toNat ∧ c.toNat ≤ 57 then some (c.toNat - 48) else none

/-- Largest value of `uint64` -/
def maxUint64 : Nat := 2 ^ 64 - 1

/-- Outcome of `strconv.ParseUint` in base 10 with 64 bits: a syntax error
(returned value 0), a range error (returned value `maxUint64`), or a value -/
inductive UintResult where
  | syntaxError : UintResult
  | rangeError : UintResult
  | ok (n : Nat) : UintResult
  deriving Repr, DecidableEq

/-- The loop `for _, c := range []byte(s)` of `strconv.ParseUint` in base 10,
`n` being the value read so far.  A character that is not a digit ends it with
a syntax error; a digit that takes the value past `maxUint64` ends it at once
with a range error, whatever follows. -/
def parseUintLoop (n : Nat) : List Char → UintResult
  | [] => .ok n
  | c :: cs =>
    match digitVal c with
    | none => .syntaxError
    | some d =>
      if n ≥ maxUint64 / 10 + 1 then .rangeError
      else
        let n := n * 10
        let n1 := (n + d) % 2 ^ 64
        if n1 < n ∨ n1 > maxUint64 then .rangeError
        else parseUintLoop n1 cs

/-- Go `strconv.ParseUint(s, 10, 64)` -/
def ParseUint (s : List Char) : UintResult :=
  match s with
  | [] => .syntaxError
  | _ :: _ => parseUintLoop 0 s

/-- The value `strconv.ParseUint` returns next to its error -/
def UintResult.value : UintResult → Nat
  | .syntaxError => 0
  | .rangeError => maxUint64
  | .ok n => n

/-- The value returned by Go `strconv.ParseInt(s, 10, 0)`: one leading sign
is picked off and the rest goes through `ParseUint`; an error other than a
range error returns 0, and a magnitude that does not fit `int` (among them the
`maxUint64` of a range error) returns the nearest bound of `int`. -/
def ParseInt (s : List Char) : Int :=
  match s with
  | [] => 0
  | c :: cs =>
    let neg : Bool := decide (c = '-')
    let rest := if c = '+' ∨ c = '-' then cs else c :: cs
    let r := ParseUint rest
    if r = .syntaxError then 0
    else
      let un := r.value
      if !neg && decide (un ≥ 2 ^ 63) then maxInt
      else if neg && decide (un > 2 ^ 63) then minInt
      else if neg then -(un : Int) else (un : Int)

/-- The value returned by Go `strconv.Atoi s` when its error is discarded
(`w, _ := strconv.Atoi(width)`).  `Atoi` is `ParseInt(s, 10, 0)`; its fast path
for short strings returns the same values. -/
def Atoi (s : String) : Int :=
  ParseInt s.data

/-! ## Regular expressions -/

/-- The fragment of Go `regexp` syntax used by `images.go` -/
inductive Re where
  | nothing : Re
  | eps : Re
  | lit (c : Char) : Re
  | fold (c : Char) : Re
  | any : Re
  | seq (a b : Re) : Re
  | alt (a b : Re) : Re
  | star (a : Re) : Re
  deriving Repr, DecidableEq

/-- Simple case folding of `(?i)`: `c` is in the fold orbit of the pattern
character `p`.  Besides the two ASCII cases of a letter, the orbit of `s` holds
U+017F and the orbit of `k` holds U+212A. -/
def foldEq (p c : Char) : Bool :=
  c == p || (p.isAlpha && c.isAlpha && c.toLower == p.toLower)
    || (p.toLower == 's' && c.toNat == 0x17F)
    || (p.toLower == 'k' && c.toNat == 0x212A)

/-- The expression matches the empty string -/
def Re.nullable : Re → Bool
  | .nothing => false
  | .eps => true
  | .lit _ => false
  | .fold _ => false
  | .any => false
  | .seq a b => a.nullable && b.nullable
  | .alt a b => a.nullable || b.nullable
  | .star _ => true

/-- The expression is syntactically the empty language -/
def Re.isNothing : Re → Bool
  | .nothing => true
  | _ => false

/-- Concatenation, with the units `nothing` and `eps` simplified away -/
def Re.mkSeq : Re → Re → Re
  | .nothing, _ => .nothing
  | .eps, b => b
  | a, b => .seq a b

/-- Alternation, with the unit `nothing` simplified away -/
def Re.mkAlt : Re → Re → Re
  | .nothing, b => b
  | a, .nothing => a
  | a, b => .alt a b

/-- Brzozowski derivative of an expression by one character -/
def Re.deriv (x : Char) : Re → Re
  | .nothing => .nothing
  | .eps => .nothing
  | .lit c => if x = c then .eps else .nothing
  | .fold c => if foldEq c x then .eps else .nothing
  | .any => if x = '\n' then .nothing else .eps
  | .seq a b =>
    if a.nullable then Re.mkAlt (Re.mkSeq (a.deriv x) b) (b.deriv x)
    else Re.mkSeq (a.deriv x) b
  | .alt a b => Re.mkAlt (a.deriv x) (b.deriv x)
  | .star a => Re.mkSeq (a.deriv x) (.star a)

/-- Some prefix of the character list matches the expression -/
def Re.matchPrefix (r : Re) : List Char → Bool
  | [] => r.nullable
  | c :: cs => r.nullable || (!r.isNothing && Re.matchPrefix (r.deriv c) cs)

/-- Some substring of the character list matches the expression -/
def Re.matchAnywhere (r : Re) : List Char → Bool
  | [] => r.nullable
  | c :: cs => r.matchPrefix (c :: cs) || Re.matchAnywhere r cs

/-- Go `(*Regexp).MatchString`: the string contains a match of the expression -/
def Re.MatchString (r : Re) (s : String) : Bool :=
  r.matchAnywhere s.data

/-- Concatenation of pattern characters: `.` is the wildcard, every other
character a literal, folded under `(?i)` when `ci` is set -/
def Re.word (ci : Bool) : List Char → Re
  | [] => .eps
  | c :: cs =>
    .seq (if c = '.' then .any else if ci then .fold c else .lit c) (Re.word ci cs)

/-- The pattern `w1|w2|...` of plain words -/
def Re.alts (ci : Bool) : List String → Re
  | [] => .nothing
  | w :: ws => .alt (Re.word ci w.data) (Re.alts ci ws)

/-- Reference semantics of the expressions: `Matches r s` when the whole of
`s` is a match of `r` -/
inductive Re.Matches : Re → List Char → Prop where
  | eps : Re.Matches .eps []
  | lit (c : Char) : Re.Matches (.lit c) [c]
  | fold (c x : Char) (h : foldEq c x = true) : Re.Matches (.fold c) [x]
  | any (x : Char) (h : x ≠ '\n') : Re.Matches .any [x]
  | seq {a b : Re} {s t : List Char} (ha : Re.Matches a s) (hb : Re.Matches b t) :
      Re.Matches (.seq a b) (s ++ t)
  | altLeft {a : Re} (b : Re) {s : List Char} (ha : Re.Matches a s) : Re.Matches (.alt a b) s
  | altRight (a : Re) {b : Re} {s : List Char} (hb : Re.Matches b s) : Re.Matches (.alt a b) s
  | starNil (a : Re) : Re.Matches (.star a) []
  | starCons {a : Re} {s t : List Char} (ha : Re.Matches a s) (hs : Re.Matches (.star a) t) :
      Re.Matches (.star a) (s ++ t)

/-! ## The document -/

/-- One element of the parsed document: its tag name and its attributes, in
source order -/
structure Node where
  tag : String
  attrs : List (String × String)
  deriving Repr, DecidableEq

/-- goquery `Attr`: value of the first attribute with the given name and
whether it exists; `("", false)` when it does not -/
def Node.Attr (n : Node) (attrName : String) : String × Bool :=
  match n.attrs.lookup attrName with
  | some val => (val, true)
  | none => ("", false)

/-- The article: the elements of its document, in document order -/
structure Article where
  Doc : List Node
  deriving Repr, DecidableEq

/-- goquery `Find` with a tag-name selector: the elements of that name, in
document order -/
def Find (doc : List Node) (name : String) : List Node :=
  doc.filter (fun n => n.tag == name)

/-- goquery `Union` of two selections that share no node (here the `meta`
and the `link` elements): the nodes of the first followed by those of the
second.  Nodes are positions of the document, so two elements with equal
attributes stay two nodes. -/
def Union (a b : List Node) : List Node :=
  a ++ b

/-! ## Rule table and `score` -/

structure candidate where
  url : String
  surface : Int
  score : Int
  deriving Repr, DecidableEq

/-- The pattern `(large|big)` -/
def largebig : Re := Re.alts false ["large", "big"]

/-- The rule table, in source order -/
def rules : List (Re × Int) :=
  [ (Re.alts false ["large", "big"], 1),
    (Re.word false "upload".data, 1),
    (Re.word false "media".data, 1),
    (Re.word false "gravatar.com".data, -1),
    (Re.word false "feeds.feedburner.com".data, -1),
    (Re.word true "icon".data, -1),
    (Re.word true "logo".data, -1),
    (Re.word true "spinner".data, -1),
    (Re.word true "loading".data, -1),
    (Re.word true "ads".data, -1),
    (Re.word false "badge".data, -1),
    (Re.word false "1x1".data, -1),
    (Re.word false "pixel".data, -1),
    (Re.seq (Re.word false "thumbnail".data) (Re.star (Re.lit 's')), -1),
    (Re.alts false
      [".html", ".gif", ".ico", "button", "twitter.jpg", "facebook.jpg",
       "ap_buy_photo", "digg.jpg", "digg.png", "delicious.png", "facebook.png",
       "reddit.jpg", "doubleclick", "diggthis", "diggThis", "adserver", "/ads/",
       "ec.atdmt.com", "mediaplex.com", "adsatt", "view.atdmt"], -1) ]

/-- The loop `for rule, score := range rules` of `score`: the sum of the
weights of the rules of `rs` that match `src` -/
def ruleSum (rs : List (Re × Int)) (src : String) : Int :=
  rs.foldl (fun tagScore r => if r.1.MatchString src then tagScore + r.2 else tagScore) 0

/-- The source of an image element: `src`, else `data-src`, else
`data-lazy-src` (the first that is not empty) -/
def resolveSrc (tag : Node) : String :=
  let src := (tag.Attr "src").1
  let src := if src = "" then (tag.Attr "data-src").1 else src
  let src := if src = "" then (tag.Attr "data-lazy-src").1 else src
  src

def score (tag : Node) : Int :=
  let src := resolveSrc tag
  if src = "" then -1
  else
    let tagScore := ruleSum rules src
    let (alt, altExists) := tag.Attr "alt"
    if altExists && Contains alt "thumbnail" then tagScore - 1 else tagScore

/-! ## `WebPageResolver` -/

/-- The variables the `imgs.Each` closure of `WebPageResolver` updates -/
structure ScanState where
  candidates : List candidate
  significantSurfaceCount : Nat
  deriving Repr, DecidableEq

/-- The surface computed from the `width` and `height` attributes -/
def surfaceOf (tag : Node) : Int :=
  let width := (tag.Attr "width").1
  let height := (tag.Attr "height").1
  if width ≠ "" then
    let w := Atoi width
    if height ≠ "" then
      let h := Atoi height
      wrapInt (w * h)
    else w
  else
    if height ≠ "" then Atoi height
    else 0

/-- One call of the closure passed to `imgs.Each` -/
def scanStep (significantSurface : Int) (st : ScanState) (tag : Node) : ScanState :=
  let src := resolveSrc tag
  if src = "" then st
  else
    let surface := surfaceOf tag
    let significantSurfaceCount :=
      if surface > significantSurface then st.significantSurfaceCount + 1
      else st.significantSurfaceCount
    let tagscore := score tag
    if tagscore ≥ 0 then
      let c : candidate := { url := src, surface := surface, score := score tag }
      { candidates := st.candidates ++ [c], significantSurfaceCount := significantSurfaceCount }
    else
      { candidates := st.candidates, significantSurfaceCount := significantSurfaceCount }

/-- The zero value of `candidate` (`var bestCandidate candidate`) -/
def candidate.zero : candidate := { url := "", surface := 0, score := 0 }

def findBestCandidateFromSurface (candidates : List candidate) : candidate :=
  (candidates.foldl
    (fun (acc : Int × candidate) c => if c.surface ≥ acc.1 then (c.surface, c) else acc)
    (0, candidate.zero)).2

def findBestCandidateFromScore (candidates : List candidate) : candidate :=
  (candidates.foldl
    (fun (acc : Int × candidate) c => if c.score ≥ acc.1 then (c.score, c) else acc)
    (0, candidate.zero)).2

/-- The closing normalisation of both resolvers: a non-empty url that does not
start with `http` gets `http://` prepended -/
def httpPrefix (topImage : String) : String :=
  if topImage ≠ "" && !HasPrefix topImage "http" then "http://" ++ topImage else topImage

/-- The state after `imgs.Each` -/
def scanImgs (article : Article) : ScanState :=
  (Find article.Doc "img").foldl (scanStep (320 * 200))
    { candidates := [], significantSurfaceCount := 0 }

/-- The value of `topImage` in `WebPageResolver` before the prefix
normalisation -/
def webPageTopImage (article : Article) : String :=
  let st := scanImgs article
  if st.candidates.length = 0 then ""
  else if st.significantSurfaceCount > 0 then (findBestCandidateFromSurface st.candidates).url
  else (findBestCandidateFromScore st.candidates).url

def WebPageResolver (article : Article) : String :=
  let st := scanImgs article
  if st.candidates.length = 0 then ""
  else
    let topImage :=
      if st.significantSurfaceCount > 0 then (findBestCandidateFromSurface st.candidates).url
      else (findBestCandidateFromScore st.candidates).url
    httpPrefix topImage

/-! ## `OpenGraphResolver` -/

structure ogTag where
  tpe : String
  attributeName : String
  name : String
  value : String
  deriving Repr, DecidableEq

def ogTags : List ogTag :=
  [ { tpe := "facebook", attributeName := "property", name := "og:image", value := "content" },
    { tpe := "facebook", attributeName := "rel", name := "image_src", value := "href" },
    { tpe := "twitter", attributeName := "name", name := "twitter:image", value := "value" },
    { tpe := "twitter", attributeName := "name", name := "twitter:image", value := "content" } ]

structure ogImage where
  url : String
  tpe : String
  score : Int
  deriving Repr, DecidableEq

/-- The zero value of `ogImage` (`var bestOGImage ogImage`) -/
def ogImage.zero : ogImage := { url := "", tpe := "", score := 0 }

/-- The inner loop `for _, ogTag := range ogTags` for one element: the
candidates it appends -/
def ogMatches (tag : Node) : List ogImage :=
  ogTags.filterMap (fun t =>
    let (attr, exist) := tag.Attr t.attributeName
    let (value, vexist) := tag.Attr t.value
    if exist && attr == t.name && vexist then
      some { url := value, tpe := t.tpe, score := 0 }
    else none)

/-- The slice `ogImages` after `meta.Each` -/
def scanMeta (article : Article) : List ogImage :=
  (Union (Find article.Doc "meta") (Find article.Doc "link")).foldl
    (fun ogImages tag => ogImages ++ ogMatches tag) []

/-- The body of the scoring loop applied to its loop variable -/
def scoreBody (img : ogImage) : ogImage :=
  let img := if largebig.MatchString img.url then { img with score := img.score + 1 } else img
  let img := if img.tpe == "twitter" then { img with score := img.score + 1 } else img
  img

/-- The scoring loop `for _, ogImage := range ogImages`: the loop variable is
a copy of the slice element, the body increments the copy, and the slice itself
is never assigned -/
def scoreLoop (ogImages : List ogImage) : List ogImage :=
  ogImages.foldl (fun slice img => let _copy := scoreBody img; slice) ogImages

def findBestImageFromScore (ogImages : List ogImage) : ogImage :=
  (ogImages.foldl
    (fun (acc : Int × ogImage) img => if img.score ≥ acc.1 then (img.score, img) else acc)
    (0, ogImage.zero)).2

/-- The value of `topImage` in `OpenGraphResolver` before the prefix
normalisation -/
def openGraphTopImage (article : Article) : String :=
  match scanMeta article with
  | [img] => img.url
  | ogImages => (findBestImageFromScore (scoreLoop ogImages)).url

def OpenGraphResolver (article : Article) : String :=
  httpPrefix (openGraphTopImage article)

/-! ## Example documents -/

/-- A Twitter card whose url contains `large`, followed by an Open Graph
image whose url matches neither `large` nor `big` -/
def docTwitterThenFacebook : Article :=
  ⟨[⟨"meta", [("name", "twitter:image"), ("content", "http://a/large.jpg")]⟩,
    ⟨"meta", [("property", "og:image"), ("content", "http://b/x.jpg")]⟩]⟩

/-- Two images below the significant surface: surface 500 with score 1, then
surface 1200 with score 0 -/
def docSmallSurfaces : Article :=
  ⟨[⟨"img", [("src", "a/media.jpg"), ("width", "50"), ("height", "10")]⟩,
    ⟨"img", [("src", "b.jpg"), ("width", "1200")]⟩]⟩

/-- An image of surface 100000 and negative score, then an image of surface
50 and score 0 -/
def docLargeNegative : Article :=
  ⟨[⟨"img", [("src", "logo"), ("width", "1000"), ("height", "100")]⟩,
    ⟨"img", [("src", "b.jpg"), ("width", "50")]⟩]⟩

/-- A single image, of surface 100000 and negative score -/
def docOnlyLargeNegative : Article :=
  ⟨[⟨"img", [("src", "logo"), ("width", "1000"), ("height", "100")]⟩]⟩

/-- A candidate with a negative declared width, then an image of surface
100000 and negative score -/
def docNegativeWidth : Article :=
  ⟨[⟨"img", [("src", "a.jpg"), ("width", "-1")]⟩,
    ⟨"img", [("src", "logo"), ("width", "1000"), ("height", "100")]⟩]⟩

/-- An Open Graph image whose `content` attribute is present and empty -/
def docEmptyContent : Article :=
  ⟨[⟨"meta", [("property", "og:image"), ("content", "")]⟩]⟩

/-- A single Open Graph image with a protocol-relative url -/
def docSingleOpenGraph : Article :=
  ⟨[⟨"meta", [("property", "og:image"), ("content", "//cdn.example.com/x.jpg")]⟩]⟩

/-- A single `image_src` link with an absolute url -/
def docSingleLink : Article :=
  ⟨[⟨"link", [("rel", "image_src"), ("href", "https://e.org/p.jpg")]⟩]⟩

/-- A single image with a protocol-relative source -/
def docProtocolRelative : Article :=
  ⟨[⟨"img", [("src", "//cdn.example.com/x.jpg")]⟩]⟩

/-- A single image with an absolute source -/
def docAbsolute : Article :=
  ⟨[⟨"img", [("data-src", "https://e.org/p.jpg")]⟩]⟩

/-- The image element whose source holds both `upload` and `icon` -/
def tagUploadIcon : Node :=
  ⟨"img", [("src", "http://example.com/upload/icon.png")]⟩

/-- An image element whose source holds two of the case-insensitive keywords -/
def tagLogoSpinner : Node :=
  ⟨"img", [("src", "Logo_Spinner")]⟩

/-- The five case-insensitive rules of the rule table -/
def foldRules : List (Re × Int) :=
  (rules.drop 5).take 5

/-- The other ten rules of the rule table -/
def otherRules : List (Re × Int) :=
  rules.take 5 ++ rules.drop 10

/-- The strings that are a base-10 numeral: an optional sign followed by at
least one decimal digit -/
def isNumeral (s : String) : Bool :=
  match s.data with
  | [] => false
  | c :: cs =>
    let rest := if c = '+' ∨ c = '-' then cs else c :: cs
    !rest.isEmpty && rest.all (fun c => (digitVal c).isSome)

/-- The function `score` with its loop `for rule, score := range rules`
visiting the entries of the map in the given order (the order in which Go
ranges over a map is not specified) -/
def scoreIn (order : List (Re × Int)) (tag : Node) : Int :=
  let src := resolveSrc tag
  if src = "" then -1
  else
    let tagScore := ruleSum order src
    let (alt, altExists) := tag.Attr "alt"
    if altExists && Contains alt "thumbnail" then tagScore - 1 else tagScore

/-- An image whose `width` is present and empty and whose `height` is `5` -/
def tagEmptyWidth : Node :=
  ⟨"img", [("src", "a.jpg"), ("width", ""), ("height", "5")]⟩

/-- An image whose `height` is present and empty and whose `width` is `7` -/
def tagEmptyHeight : Node :=
  ⟨"img", [("src", "a.jpg"), ("width", "7"), ("height", "")]⟩

/-- An image with width `300` and height `200` -/
def tagBothSizes : Node :=
  ⟨"img", [("src", "a.jpg"), ("width", "300"), ("height", "200")]⟩

/-- An image whose width is not a numeral -/
def tagPixelWidth : Node :=
  ⟨"img", [("src", "a.jpg"), ("width", "12px"), ("height", "200")]⟩

/-- An image whose width starts with twenty digits `9` and ends in `px` -/
def tagOverflowWidth : Node :=
  ⟨"img", [("src", "a.jpg"), ("width", "99999999999999999999px")]⟩

/-- An image of width `5` followed by an image of width `-5` -/
def docMixedWidths : Article :=
  ⟨[⟨"img", [("src", "a.jpg"), ("width", "5")]⟩,
    ⟨"img", [("src", "b.jpg"), ("width", "-5")]⟩]⟩

/-- A single image with a negative width and a positive height -/
def docNegativeProduct : Article :=
  ⟨[⟨"img", [("src", "a.jpg"), ("width", "-5"), ("height", "3")]⟩]⟩

/-- A single image whose width times height exceeds the largest `int` -/
def docOverflow : Article :=
  ⟨[⟨"img", [("src", "a.jpg"), ("width", "3037000500"), ("height", "3037000500")]⟩]⟩

/-- An image whose `alt` text holds `thumbnail` twice and whose source
matches the rule `media` -/
def tagThumbnailAlt : Node :=
  ⟨"img", [("src", "a/media.jpg"), ("alt", "thumbnail of a thumbnail")]⟩

/-- An image with all three source attributes -/
def tagThreeSources : Node :=
  ⟨"img", [("data-lazy-src", "l.jpg"), ("data-src", "d.jpg"), ("src", "s.jpg")]⟩

/-- An image with an empty `src` and the two fallback attributes -/
def tagLazySources : Node :=
  ⟨"img", [("src", ""), ("data-lazy-src", "l.jpg"), ("data-src", "d.jpg")]⟩

/-- An image that only has `data-lazy-src` -/
def tagLazyOnly : Node :=
  ⟨"img", [("data-lazy-src", "l.jpg")]⟩

/-- An image of surface 500 whose source matches the rule `media` -/
def tagMedia : Node :=
  ⟨"img", [("src", "a/media.jpg"), ("width", "50"), ("height", "10")]⟩

/-- An image of surface 1200 whose source matches no rule -/
def tagPlain : Node :=
  ⟨"img", [("src", "b.jpg"), ("width", "1200")]⟩

/-- An image without any source and a declared surface of 100000 -/
def tagNoSource : Node :=
  ⟨"img", [("width", "1000"), ("height", "100"), ("alt", "x")]⟩

/-- An image of negative score and surface 50 -/
def tagSmallLogo : Node :=
  ⟨"img", [("src", "logo"), ("width", "50")]⟩

/-- An Open Graph image, a Twitter card with both value attributes, and an
`image_src` link placed before them in the document -/
def docThreeSocial : Article :=
  ⟨[⟨"link", [("rel", "image_src"), ("href", "l.jpg")]⟩,
    ⟨"meta", [("property", "og:image"), ("content", "big.jpg")]⟩,
    ⟨"meta", [("name", "twitter:image"), ("value", "v.jpg"), ("content", "c.jpg")]⟩]⟩

/-! ## Auxiliary facts -/

/-- The candidate built by the closure of `WebPageResolver` for one element,
if it builds one -/
def toCandidate (tag : Node) : Option candidate :=
  if resolveSrc tag = "" then none
  else if score tag ≥ 0 then
    some { url := resolveSrc tag, surface := surfaceOf tag, score := score tag }
  else none

/-- The element is counted by `significantSurfaceCount` -/
def isSignificant (tag : Node) : Bool :=
  decide (resolveSrc tag ≠ "") && decide (surfaceOf tag > 320 * 200)

theorem foldl_scanStep (imgs : List Node) (st : ScanState) :
    imgs.foldl (scanStep (320 * 200)) st =
      { candidates := st.candidates ++ imgs.filterMap toCandidate,
        significantSurfaceCount := st.significantSurfaceCount + imgs.countP isSignificant } := by
  induction imgs generalizing st with
  | nil => simp
  | cons tag rest ih =>
    rw [List.foldl_cons, ih]
    by_cases hsrc : resolveSrc tag = ""
    · simp [scanStep, toCandidate, isSignificant, hsrc]
    · by_cases hsc : 0 ≤ score tag <;> by_cases hsf : (64000 : Int) < surfaceOf tag <;>
        simp [scanStep, toCandidate, isSignificant, hsrc, hsc, hsf, List.countP_cons] <;> omega

theorem scanImgs_candidates (a : Article) :
    (scanImgs a).candidates = (Find a.Doc "img").filterMap toCandidate := by
  rw [scanImgs, foldl_scanStep]; simp

theorem scanImgs_count (a : Article) :
    (scanImgs a).significantSurfaceCount = (Find a.Doc "img").countP isSignificant := by
  rw [scanImgs, foldl_scanStep]; simp

/-- The running-maximum pass shared by the three `findBest...` functions: it
either keeps its initial pair (every key is below the initial maximum), or
returns the last element whose key is maximal. -/
theorem foldl_best {α : Type} (key : α → Int) (l : List α) (m : Int) (b : α) :
    ((∀ c ∈ l, key c < m) ∧
        l.foldl (fun (acc : Int × α) c => if key c ≥ acc.1 then (key c, c) else acc) (m, b)
          = (m, b)) ∨
      ∃ pre c post, l = pre ++ c :: post ∧ m ≤ key c ∧
        (∀ d ∈ pre, key d ≤ key c) ∧ (∀ d ∈ post, key d < key c) ∧
        l.foldl (fun (acc : Int × α) c => if key c ≥ acc.1 then (key c, c) else acc) (m, b)
          = (key c, c) := by
  induction l generalizing m b with
  | nil => left; simp
  | cons x xs ih =>
    rw [List.foldl_cons]
    by_cases hx : key x ≥ m
    · simp only [hx, if_true]
      right
      rcases ih (key x) x with ⟨hall, hfold⟩ | ⟨pre, c, post, hl, hm, hpre, hpost, hfold⟩
      · exact ⟨[], x, xs, by simp, hx, by simp, hall, hfold⟩
      · refine ⟨x :: pre, c, post, by simp [hl], le_trans hx hm, ?_, hpost, hfold⟩
        intro d hd
        rcases List.mem_cons.mp hd with rfl | hd
        · exact hm
        · exact hpre d hd
    · simp only [hx, if_false]
      have hx' : key x < m := lt_of_not_ge hx
      rcases ih m b with ⟨hall, hfold⟩ | ⟨pre, c, post, hl, hm, hpre, hpost, hfold⟩
      · left
        refine ⟨?_, hfold⟩
        intro d hd
        rcases List.mem_cons.mp hd with rfl | hd
        · exact hx'
        · exact hall d hd
      · right
        refine ⟨x :: pre, c, post, by simp [hl], hm, ?_, hpost, hfold⟩
        intro d hd
        rcases List.mem_cons.mp hd with rfl | hd
        · exact le_of_lt (lt_of_lt_of_le hx' hm)
        · exact hpre d hd

/-- A split of a `filterMap` image comes from a split of the list -/
theorem filterMap_split {α β : Type} (f : α → Option β) (l : List α) (pre : List β) (c : β)
    (post : List β) (h : l.filterMap f = pre ++ c :: post) :
    ∃ l1 t l2, l = l1 ++ t :: l2 ∧ f t = some c ∧ l1.filterMap f = pre ∧
      l2.filterMap f = post := by
  induction l generalizing pre with
  | nil => simp at h
  | cons x xs ih =>
    cases hfx : f x with
    | none =>
      rw [List.filterMap_cons_none hfx] at h
      obtain ⟨l1, t, l2, hl, ht, h1, h2⟩ := ih pre h
      exact ⟨x :: l1, t, l2, by simp [hl], ht, by simp [List.filterMap_cons_none hfx, h1], h2⟩
    | some y =>
      rw [List.filterMap_cons_some hfx] at h
      cases pre with
      | nil =>
        simp only [List.nil_append, List.cons.injEq] at h
        exact ⟨[], x, xs, by simp, by rw [hfx, h.1], by simp, h.2⟩
      | cons p pre' =>
        simp only [List.cons_append, List.cons.injEq] at h
        obtain ⟨l1, t, l2, hl, ht, h1, h2⟩ := ih pre' h.2
        exact ⟨x :: l1, t, l2, by simp [hl], ht,
          by simp [List.filterMap_cons_some hfx, h1, h.1], h2⟩

theorem toCandidate_some {tag : Node} {c : candidate} (h : toCandidate tag = some c) :
    resolveSrc tag ≠ "" ∧ 0 ≤ score tag ∧ c.url = resolveSrc tag ∧
      c.surface = surfaceOf tag ∧ c.score = score tag := by
  unfold toCandidate at h
  by_cases hsrc : resolveSrc tag = ""
  · simp [hsrc] at h
  · by_cases hsc : score tag ≥ 0
    · simp only [hsrc, hsc, if_true, if_false, Option.some.injEq] at h
      subst h
      exact ⟨hsrc, hsc, rfl, rfl, rfl⟩
    · simp [hsrc, hsc] at h

theorem toCandidate_of {tag : Node} (hsrc : resolveSrc tag ≠ "") (hsc : 0 ≤ score tag) :
    toCandidate tag =
      some { url := resolveSrc tag, surface := surfaceOf tag, score := score tag } := by
  unfold toCandidate
  simp [hsrc, hsc]

theorem toCandidate_none {tag : Node} (h : toCandidate tag = none) :
    resolveSrc tag = "" ∨ score tag < 0 := by
  by_cases hsrc : resolveSrc tag = ""
  · exact Or.inl hsrc
  · by_cases hsc : 0 ≤ score tag
    · rw [toCandidate_of hsrc hsc] at h
      cases h
    · exact Or.inr (lt_of_not_ge hsc)

theorem score_of_empty_src {tag : Node} (h : resolveSrc tag = "") : score tag = -1 := by
  unfold score
  simp [h]

/-- The element split behind a split of the candidate list -/
theorem candidates_split (imgs : List Node) (pre : List candidate) (c : candidate)
    (post : List candidate) (h : imgs.filterMap toCandidate = pre ++ c :: post) :
    ∃ l1 t l2, imgs = l1 ++ t :: l2 ∧ toCandidate t = some c ∧
      (∀ u ∈ l1, ∀ d, toCandidate u = some d → d ∈ pre) ∧
      (∀ u ∈ l2, ∀ d, toCandidate u = some d → d ∈ post) := by
  obtain ⟨l1, t, l2, hl, ht, h1, h2⟩ := filterMap_split toCandidate imgs pre c post h
  refine ⟨l1, t, l2, hl, ht, ?_, ?_⟩
  · intro u hu d hd
    rw [← h1]
    exact List.mem_filterMap.mpr ⟨u, hu, hd⟩
  · intro u hu d hd
    rw [← h2]
    exact List.mem_filterMap.mpr ⟨u, hu, hd⟩

theorem WebPageResolver_eq (a : Article) (h : (scanImgs a).candidates ≠ []) :
    WebPageResolver a = httpPrefix
      (if (scanImgs a).significantSurfaceCount > 0
        then (findBestCandidateFromSurface (scanImgs a).candidates).url
        else (findBestCandidateFromScore (scanImgs a).candidates).url) := by
  unfold WebPageResolver
  have hlen : (scanImgs a).candidates.length ≠ 0 := by
    intro h0
    exact h (List.length_eq_zero.mp h0)
  simp only [hlen, if_false]

theorem WebPageResolver_no_candidate (a : Article) (h : (scanImgs a).candidates = []) :
    WebPageResolver a = "" := by
  unfold WebPageResolver
  simp [h]

/-- C2: when no image element with a resolved source has surface above
64000 and some element is a candidate, `WebPageResolver` returns the normalised
source of the last element of the document whose score is maximal (that score
is at least 0, so every element it is compared with that has a negative score,
or no source, lies below it); surfaces play no part. -/
theorem WebPageResolver_by_score (a : Article)
    (hsmall : ∀ tag ∈ Find a.Doc "img", resolveSrc tag ≠ "" → surfaceOf tag ≤ 320 * 200)
    (hcand : ∃ tag ∈ Find a.Doc "img", resolveSrc tag ≠ "" ∧ 0 ≤ score tag) :
    ∃ pre tag post, Find a.Doc "img" = pre ++ tag :: post ∧
      resolveSrc tag ≠ "" ∧ 0 ≤ score tag ∧
      (∀ t ∈ pre, score t ≤ score tag) ∧ (∀ t ∈ post, score t < score tag) ∧
      WebPageResolver a = httpPrefix (resolveSrc tag) := by
  obtain ⟨tag0, hmem0, hsrc0, hsc0⟩ := hcand
  have hc0 : ({ url := resolveSrc tag0, surface := surfaceOf tag0, score := score tag0 } :
      candidate) ∈ (scanImgs a).candidates := by
    rw [scanImgs_candidates]
    exact List.mem_filterMap.mpr ⟨tag0, hmem0, toCandidate_of hsrc0 hsc0⟩
  have hne : (scanImgs a).candidates ≠ [] := List.ne_nil_of_mem hc0
  have hcount : (scanImgs a).significantSurfaceCount = 0 := by
    rw [scanImgs_count, List.countP_eq_zero]
    intro t ht
    simp only [isSignificant, Bool.and_eq_true, decide_eq_true_eq, not_and, not_lt]
    intro hsrc
    exact hsmall t ht hsrc
  rw [WebPageResolver_eq a hne, hcount]
  simp only [gt_iff_lt, lt_self_iff_false, if_false]
  unfold findBestCandidateFromScore
  rcases foldl_best candidate.score (scanImgs a).candidates 0 candidate.zero with
    ⟨hall, _⟩ | ⟨pre, c, post, hl, hm, hpre, hpost, hfold⟩
  · exact absurd (hall _ hc0) (not_lt.mpr hsc0)
  · rw [hfold]
    rw [scanImgs_candidates] at hl
    obtain ⟨l1, t, l2, himgs, ht, h1, h2⟩ := candidates_split _ pre c post hl
    obtain ⟨hsrc, hsc, hurl, _, hscore⟩ := toCandidate_some ht
    refine ⟨l1, t, l2, himgs, hsrc, hsc, ?_, ?_, by rw [hurl]⟩
    · intro u hu
      cases hcu : toCandidate u with
      | none =>
        rcases toCandidate_none hcu with he | hneg
        · rw [score_of_empty_src he]; omega
        · omega
      | some d =>
        have := hpre d (h1 u hu d hcu)
        rw [(toCandidate_some hcu).2.2.2.2, hscore] at this
        exact this
    · intro u hu
      cases hcu : toCandidate u with
      | none =>
        rcases toCandidate_none hcu with he | hneg
        · rw [score_of_empty_src he]; omega
        · omega
      | some d =>
        have := hpost d (h2 u hu d hcu)
        rw [(toCandidate_some hcu).2.2.2.2, hscore] at this
        exact this

theorem httpPrefix_empty : httpPrefix "" = "" := by
  simp [httpPrefix]

theorem httpPrefix_cases (u : String) : httpPrefix u = u ∨ httpPrefix u = "http://" ++ u := by
  unfold httpPrefix
  split
  · exact Or.inr rfl
  · exact Or.inl rfl

/-- The winner of either selection pass of `WebPageResolver` is the zero
candidate or comes from an element of the document that is a candidate -/
theorem best_is_zero_or_candidate (a : Article) (key : candidate → Int) :
    let best := ((scanImgs a).candidates.foldl
      (fun (acc : Int × candidate) c => if key c ≥ acc.1 then (key c, c) else acc)
      (0, candidate.zero)).2
    best = candidate.zero ∨
      ∃ tag ∈ Find a.Doc "img", resolveSrc tag ≠ "" ∧ 0 ≤ score tag ∧
        best.url = resolveSrc tag := by
  intro best
  rcases foldl_best key (scanImgs a).candidates 0 candidate.zero with
    ⟨_, hfold⟩ | ⟨pre, c, post, hl, _, _, _, hfold⟩
  · left
    simp only [best, hfold]
  · right
    have hc : c ∈ (scanImgs a).candidates := by rw [hl]; simp
    rw [scanImgs_candidates] at hc
    obtain ⟨tag, hmem, htag⟩ := List.mem_filterMap.mp hc
    obtain ⟨hsrc, hsc, hurl, _, _⟩ := toCandidate_some htag
    refine ⟨tag, hmem, hsrc, hsc, ?_⟩
    simp only [best, hfold]
    exact hurl

/-- C7: a non-empty result of `WebPageResolver` is the resolved source of
an image element of the document whose score is at least 0, possibly with
`http://` prepended by the closing normalisation. -/
theorem WebPageResolver_winner_is_candidate (a : Article) (h : WebPageResolver a ≠ "") :
    ∃ tag ∈ Find a.Doc "img", resolveSrc tag ≠ "" ∧ 0 ≤ score tag ∧
      WebPageResolver a = httpPrefix (resolveSrc tag) ∧
      (WebPageResolver a = resolveSrc tag ∨ WebPageResolver a = "http://" ++ resolveSrc tag) := by
  by_cases hne : (scanImgs a).candidates = []
  · exact absurd (WebPageResolver_no_candidate a hne) h
  · have heq := WebPageResolver_eq a hne
    have key : ∀ best : candidate,
        (best = candidate.zero ∨
          ∃ tag ∈ Find a.Doc "img", resolveSrc tag ≠ "" ∧ 0 ≤ score tag ∧
            best.url = resolveSrc tag) →
        WebPageResolver a = httpPrefix best.url →
        ∃ tag ∈ Find a.Doc "img", resolveSrc tag ≠ "" ∧ 0 ≤ score tag ∧
          WebPageResolver a = httpPrefix (resolveSrc tag) ∧
          (WebPageResolver a = resolveSrc tag ∨
            WebPageResolver a = "http://" ++ resolveSrc tag) := by
      intro best hbest hres
      rcases hbest with hz | ⟨tag, hmem, hsrc, hsc, hurl⟩
      · rw [hz] at hres
        exact absurd (hres.trans httpPrefix_empty) h
      · rw [hurl] at hres
        refine ⟨tag, hmem, hsrc, hsc, hres, ?_⟩
        rw [hres]
        exact httpPrefix_cases _
    by_cases hcount : (scanImgs a).significantSurfaceCount > 0
    · rw [if_pos hcount] at heq
      exact key _ (best_is_zero_or_candidate a candidate.surface) heq
    · rw [if_neg hcount] at heq
      exact key _ (best_is_zero_or_candidate a candidate.score) heq

/-- C3 (amended): when some image element with a resolved source has surface
above 64000 (candidate or not), every candidate has a surface of at least 0,
and at least one candidate exists, `WebPageResolver` returns the normalised
source of the last candidate of the document whose surface is maximal among
the candidates. -/
theorem WebPageResolver_by_surface (a : Article)
    (hbig : ∃ tag ∈ Find a.Doc "img", resolveSrc tag ≠ "" ∧ surfaceOf tag > 320 * 200)
    (hnn : ∀ tag ∈ Find a.Doc "img", resolveSrc tag ≠ "" → 0 ≤ score tag → 0 ≤ surfaceOf tag)
    (hcand : ∃ tag ∈ Find a.Doc "img", resolveSrc tag ≠ "" ∧ 0 ≤ score tag) :
    ∃ pre tag post, Find a.Doc "img" = pre ++ tag :: post ∧
      resolveSrc tag ≠ "" ∧ 0 ≤ score tag ∧
      (∀ t ∈ pre, resolveSrc t ≠ "" → 0 ≤ score t → surfaceOf t ≤ surfaceOf tag) ∧
      (∀ t ∈ post, resolveSrc t ≠ "" → 0 ≤ score t → surfaceOf t < surfaceOf tag) ∧
      WebPageResolver a = httpPrefix (resolveSrc tag) := by
  obtain ⟨tag0, hmem0, hsrc0, hsc0⟩ := hcand
  have hc0 : ({ url := resolveSrc tag0, surface := surfaceOf tag0, score := score tag0 } :
      candidate) ∈ (scanImgs a).candidates := by
    rw [scanImgs_candidates]
    exact List.mem_filterMap.mpr ⟨tag0, hmem0, toCandidate_of hsrc0 hsc0⟩
  have hne : (scanImgs a).candidates ≠ [] := List.ne_nil_of_mem hc0
  have hcount : (scanImgs a).significantSurfaceCount > 0 := by
    rw [scanImgs_count]
    obtain ⟨tagb, hmemb, hsrcb, hsfb⟩ := hbig
    apply List.countP_pos_iff.mpr
    exact ⟨tagb, hmemb, by simp [isSignificant, hsrcb]; exact hsfb⟩
  rw [WebPageResolver_eq a hne, if_pos hcount]
  unfold findBestCandidateFromSurface
  rcases foldl_best candidate.surface (scanImgs a).candidates 0 candidate.zero with
    ⟨hall, _⟩ | ⟨pre, c, post, hl, hm, hpre, hpost, hfold⟩
  · exact absurd (hall _ hc0) (not_lt.mpr (hnn tag0 hmem0 hsrc0 hsc0))
  · rw [hfold]
    rw [scanImgs_candidates] at hl
    obtain ⟨l1, t, l2, himgs, ht, h1, h2⟩ := candidates_split _ pre c post hl
    obtain ⟨hsrc, hsc, hurl, hsurf, _⟩ := toCandidate_some ht
    refine ⟨l1, t, l2, himgs, hsrc, hsc, ?_, ?_, by rw [hurl]⟩
    · intro u hu husrc husc
      have := hpre _ (h1 u hu _ (toCandidate_of husrc husc))
      rw [hsurf] at this
      exact this
    · intro u hu husrc husc
      have := hpost _ (h2 u hu _ (toCandidate_of husrc husc))
      rw [hsurf] at this
      exact this

/-! ### Social-metadata scan -/

theorem scoreLoop_eq (ogImages : List ogImage) : scoreLoop ogImages = ogImages := by
  unfold scoreLoop
  generalize ogImages = slice at *
  suffices h : ∀ (l s : List ogImage),
      l.foldl (fun slice img => let _copy := scoreBody img; slice) s = s from h _ _
  intro l
  induction l with
  | nil => intro s; rfl
  | cons x xs ih => intro s; rw [List.foldl_cons]; exact ih s

theorem mem_foldl_append {α β : Type} (f : α → List β) (l : List α) (init : List β) (c : β) :
    c ∈ l.foldl (fun acc t => acc ++ f t) init ↔ c ∈ init ∨ ∃ t ∈ l, c ∈ f t := by
  induction l generalizing init with
  | nil => simp
  | cons x xs ih =>
    rw [List.foldl_cons, ih]
    simp only [List.mem_append, List.mem_cons, exists_eq_or_imp]
    tauto

theorem mem_scanMeta (a : Article) (c : ogImage) :
    c ∈ scanMeta a ↔
      ∃ tag ∈ Union (Find a.Doc "meta") (Find a.Doc "link"), c ∈ ogMatches tag := by
  unfold scanMeta
  rw [mem_foldl_append]
  simp

/-- What it means for a candidate to have been built from element `tag` and
tag spec `t`: the locator attribute is present with the spec's name, the value
attribute is present, and the candidate takes its string, the spec's family
and score 0 -/
theorem mem_ogMatches (tag : Node) (c : ogImage) :
    c ∈ ogMatches tag ↔
      ∃ t ∈ ogTags, (tag.Attr t.attributeName).2 = true ∧
        (tag.Attr t.attributeName).1 = t.name ∧ (tag.Attr t.value).2 = true ∧
        c = { url := (tag.Attr t.value).1, tpe := t.tpe, score := 0 } := by
  unfold ogMatches
  rw [List.mem_filterMap]
  constructor
  · rintro ⟨t, ht, h⟩
    refine ⟨t, ht, ?_⟩
    by_cases hc : ((tag.Attr t.attributeName).2 && (tag.Attr t.attributeName).1 == t.name
        && (tag.Attr t.value).2) = true
    · simp only [hc, if_true, Option.some.injEq] at h
      simp only [Bool.and_eq_true, beq_iff_eq] at hc
      exact ⟨hc.1.1, hc.1.2, hc.2, h.symm⟩
    · simp only [hc] at h
      cases h
  · rintro ⟨t, ht, h1, h2, h3, hc⟩
    refine ⟨t, ht, ?_⟩
    simp [h1, h2, h3, hc]

theorem scanMeta_score_zero (a : Article) (c : ogImage) (h : c ∈ scanMeta a) : c.score = 0 := by
  obtain ⟨tag, _, hc⟩ := (mem_scanMeta a c).mp h
  obtain ⟨t, _, _, _, _, rfl⟩ := (mem_ogMatches tag c).mp hc
  rfl

/-- With every stored score equal to 0, `findBestImageFromScore` returns the
last image of a non-empty slice -/
theorem findBestImageFromScore_last (l : List ogImage) (x : ogImage)
    (h : ∀ c ∈ l ++ [x], c.score = 0) : findBestImageFromScore (l ++ [x]) = x := by
  unfold findBestImageFromScore
  rw [List.foldl_append, List.foldl_cons, List.foldl_nil]
  have hx : x.score = 0 := h x (by simp)
  rcases foldl_best ogImage.score l 0 ogImage.zero with
    ⟨_, hfold⟩ | ⟨pre, c, post, hl, _, _, _, hfold⟩
  · rw [hfold]
    simp [hx]
  · rw [hfold]
    have hc : c.score = 0 := h c (by rw [hl]; simp)
    simp [hx, hc]

theorem openGraphTopImage_nil (a : Article) (h : scanMeta a = []) :
    openGraphTopImage a = "" := by
  unfold openGraphTopImage
  rw [h]
  rfl

theorem openGraphTopImage_single (a : Article) (c : ogImage) (h : scanMeta a = [c]) :
    openGraphTopImage a = c.url := by
  unfold openGraphTopImage
  rw [h]

/-- The winning url of `OpenGraphResolver` is the url of a candidate as soon
as there is a candidate -/
theorem openGraphTopImage_mem (a : Article) (hne : scanMeta a ≠ []) :
    ∃ c ∈ scanMeta a, openGraphTopImage a = c.url := by
  rcases List.eq_nil_or_concat (scanMeta a) with hnil | ⟨l, x, hl⟩
  · exact absurd hnil hne
  · rw [List.concat_eq_append] at hl
    refine ⟨x, by rw [hl]; simp, ?_⟩
    have hbest : findBestImageFromScore (scoreLoop (scanMeta a)) = x := by
      rw [scoreLoop_eq, hl]
      apply findBestImageFromScore_last
      intro c hc
      rw [← hl] at hc
      exact scanMeta_score_zero a c hc
    unfold openGraphTopImage
    split
    · rename_i img himg
      rw [himg] at hl
      have : l = [] ∧ img = x := by
        cases l with
        | nil => simpa using hl
        | cons y ys =>
          have hlen := congrArg List.length hl
          simp at hlen
      rw [this.2]
    · rw [hbest]

theorem HasPrefix_http (u : String) : HasPrefix ("http://" ++ u) "http" = true := by
  unfold HasPrefix
  simp [String.data_append, List.isPrefixOf]

theorem httpPrefix_ok (u : String) : httpPrefix u = "" ∨ HasPrefix (httpPrefix u) "http" = true := by
  unfold httpPrefix
  by_cases hu : u = ""
  · simp [hu]
  · by_cases hp : HasPrefix u "http" = true
    · simp [hu, hp]
    · simp only [Bool.not_eq_true] at hp
      simp [hu, hp, HasPrefix_http]

theorem httpPrefix_ne_empty {u : String} (h : u ≠ "") : httpPrefix u ≠ "" := by
  unfold httpPrefix
  split
  · intro hcontra
    have := congrArg String.length hcontra
    simp only [String.length_append] at this
    have h7 : "http://".length = 7 := by decide
    have h0 : "".length = 0 := by decide
    omega
  · exact h

theorem WebPageResolver_eq_httpPrefix (a : Article) :
    WebPageResolver a = httpPrefix (webPageTopImage a) := by
  unfold WebPageResolver webPageTopImage
  by_cases h : (scanImgs a).candidates.length = 0
  · simp [h, httpPrefix_empty]
  · simp only [h, if_false]

/-! ## The claims -/

/-- C1: evaluation at a document with a Twitter card whose url contains
`large` followed by a Facebook image without `large` or `big`.  The scan
yields exactly these two candidates; the loop body would score them 2 and 0,
but the slice keeps score 0 for both and the Facebook url is returned. -/
theorem OpenGraphResolver_twitter_first_loses :
    scanMeta docTwitterThenFacebook =
        [{ url := "http://a/large.jpg", tpe := "twitter", score := 0 },
         { url := "http://b/x.jpg", tpe := "facebook", score := 0 }] ∧
      (scoreBody { url := "http://a/large.jpg", tpe := "twitter", score := 0 }).score = 2 ∧
      (scoreBody { url := "http://b/x.jpg", tpe := "facebook", score := 0 }).score = 0 ∧
      scoreLoop (scanMeta docTwitterThenFacebook) = scanMeta docTwitterThenFacebook ∧
      OpenGraphResolver docTwitterThenFacebook = "http://b/x.jpg" := by
  decide

/-- Witness of C2: surfaces 500 and 1200, the element of surface 500 and
score 1 wins -/
theorem WebPageResolver_by_score_witness :
    (∀ tag ∈ Find docSmallSurfaces.Doc "img", resolveSrc tag ≠ "" → surfaceOf tag ≤ 320 * 200) ∧
      (∃ tag ∈ Find docSmallSurfaces.Doc "img", resolveSrc tag ≠ "" ∧ 0 ≤ score tag) ∧
      (∃ pre tag post, Find docSmallSurfaces.Doc "img" = pre ++ tag :: post ∧
        resolveSrc tag ≠ "" ∧ 0 ≤ score tag ∧
        (∀ t ∈ pre, score t ≤ score tag) ∧ (∀ t ∈ post, score t < score tag) ∧
        WebPageResolver docSmallSurfaces = httpPrefix (resolveSrc tag)) ∧
      WebPageResolver docSmallSurfaces = "http://a/media.jpg" :=
  ⟨by decide, by decide, WebPageResolver_by_score docSmallSurfaces (by decide) (by decide),
    by decide⟩

/-- Counterexample to C3 as stated: the only image has surface 100000 and a
negative score, so the hypotheses of the claim hold, no candidate exists, and
the result is empty rather than the url of a candidate. -/
theorem WebPageResolver_by_surface_needs_candidate :
    (∃ tag ∈ Find docOnlyLargeNegative.Doc "img",
        resolveSrc tag ≠ "" ∧ surfaceOf tag > 320 * 200) ∧
      (∀ tag ∈ Find docOnlyLargeNegative.Doc "img",
        resolveSrc tag ≠ "" → 0 ≤ score tag → 0 ≤ surfaceOf tag) ∧
      WebPageResolver docOnlyLargeNegative = "" ∧
      ¬ ∃ tag ∈ Find docOnlyLargeNegative.Doc "img", resolveSrc tag ≠ "" ∧ 0 ≤ score tag ∧
        WebPageResolver docOnlyLargeNegative = httpPrefix (resolveSrc tag) := by
  decide

/-- Witness of C3 (amended): surface 100000 with negative score, then
surface 50 with score 0; the url of the surface-50 element is returned -/
theorem WebPageResolver_by_surface_witness :
    (∃ tag ∈ Find docLargeNegative.Doc "img", resolveSrc tag ≠ "" ∧ surfaceOf tag > 320 * 200) ∧
      (∀ tag ∈ Find docLargeNegative.Doc "img",
        resolveSrc tag ≠ "" → 0 ≤ score tag → 0 ≤ surfaceOf tag) ∧
      (∃ tag ∈ Find docLargeNegative.Doc "img", resolveSrc tag ≠ "" ∧ 0 ≤ score tag) ∧
      (∃ pre tag post, Find docLargeNegative.Doc "img" = pre ++ tag :: post ∧
        resolveSrc tag ≠ "" ∧ 0 ≤ score tag ∧
        (∀ t ∈ pre, resolveSrc t ≠ "" → 0 ≤ score t → surfaceOf t ≤ surfaceOf tag) ∧
        (∀ t ∈ post, resolveSrc t ≠ "" → 0 ≤ score t → surfaceOf t < surfaceOf tag) ∧
        WebPageResolver docLargeNegative = httpPrefix (resolveSrc tag)) ∧
      WebPageResolver docLargeNegative = "http://b.jpg" :=
  ⟨by decide, by decide, by decide,
    WebPageResolver_by_surface docLargeNegative (by decide) (by decide) (by decide), by decide⟩

/-- C4: evaluation at a document whose only candidate declares width `-1`
while another image (not a candidate) has surface 100000.  A candidate exists,
the surface pass keeps its zero candidate, and the result is empty. -/
theorem WebPageResolver_empty_with_candidate :
    (scanImgs docNegativeWidth).candidates = [{ url := "a.jpg", surface := -1, score := 0 }] ∧
      (scanImgs docNegativeWidth).significantSurfaceCount = 1 ∧
      findBestCandidateFromSurface (scanImgs docNegativeWidth).candidates = candidate.zero ∧
      (∃ tag ∈ Find docNegativeWidth.Doc "img", resolveSrc tag ≠ "" ∧ 0 ≤ score tag) ∧
      WebPageResolver docNegativeWidth = "" := by
  decide

/-- Counterexample to C5 as stated: a `meta` element with
`property="og:image"` and an empty `content` yields a candidate whose url is
empty, and the result is empty although a candidate exists. -/
theorem OpenGraphResolver_empty_url_candidate :
    scanMeta docEmptyContent = [{ url := "", tpe := "facebook", score := 0 }] ∧
      OpenGraphResolver docEmptyContent = "" ∧
      ¬ (OpenGraphResolver docEmptyContent = "" ↔ scanMeta docEmptyContent = []) ∧
      ¬ ∀ c ∈ scanMeta docEmptyContent, c.url ≠ "" := by
  decide

/-- C5 (amended): the scan of the `meta` and `link` elements produces no
candidate exactly when no element matches a tag spec's locator attribute and
value with the spec's value attribute present; without a candidate the result
is empty; a candidate's url is the string of the value attribute, which may be
empty; and when no candidate has an empty url, the result is empty if and only
if there is no candidate. -/
theorem OpenGraphResolver_empty_iff (a : Article) :
    (scanMeta a = [] ↔
        ∀ tag ∈ Union (Find a.Doc "meta") (Find a.Doc "link"), ∀ t ∈ ogTags,
          ¬ ((tag.Attr t.attributeName).2 = true ∧ (tag.Attr t.attributeName).1 = t.name ∧
            (tag.Attr t.value).2 = true)) ∧
      (scanMeta a = [] → OpenGraphResolver a = "") ∧
      (∀ c ∈ scanMeta a, ∃ tag ∈ Union (Find a.Doc "meta") (Find a.Doc "link"), ∃ t ∈ ogTags,
          (tag.Attr t.value).2 = true ∧ c.url = (tag.Attr t.value).1) ∧
      ((∀ c ∈ scanMeta a, c.url ≠ "") → (OpenGraphResolver a = "" ↔ scanMeta a = [])) := by
  refine ⟨?_, ?_, ?_, ?_⟩
  · rw [List.eq_nil_iff_forall_not_mem]
    constructor
    · intro h tag htag t ht hm
      apply h { url := (tag.Attr t.value).1, tpe := t.tpe, score := 0 }
      exact (mem_scanMeta a _).mpr
        ⟨tag, htag, (mem_ogMatches tag _).mpr ⟨t, ht, hm.1, hm.2.1, hm.2.2, rfl⟩⟩
    · intro h c hc
      obtain ⟨tag, htag, hcm⟩ := (mem_scanMeta a c).mp hc
      obtain ⟨t, ht, h1, h2, h3, _⟩ := (mem_ogMatches tag c).mp hcm
      exact h tag htag t ht ⟨h1, h2, h3⟩
  · intro h
    unfold OpenGraphResolver
    rw [openGraphTopImage_nil a h, httpPrefix_empty]
  · intro c hc
    obtain ⟨tag, htag, hcm⟩ := (mem_scanMeta a c).mp hc
    obtain ⟨t, ht, _, _, h3, rfl⟩ := (mem_ogMatches tag c).mp hcm
    exact ⟨tag, htag, t, ht, h3, rfl⟩
  · intro hurl
    constructor
    · intro hres
      by_contra hne
      obtain ⟨c, hc, htop⟩ := openGraphTopImage_mem a hne
      unfold OpenGraphResolver at hres
      rw [htop] at hres
      exact httpPrefix_ne_empty (hurl c hc) hres
    · intro h
      unfold OpenGraphResolver
      rw [openGraphTopImage_nil a h, httpPrefix_empty]

/-- Witness of C5 (amended): one candidate with a non-empty url, a non-empty
result -/
theorem OpenGraphResolver_empty_iff_witness :
    (∀ c ∈ scanMeta docSingleLink, c.url ≠ "") ∧
      (OpenGraphResolver docSingleLink = "" ↔ scanMeta docSingleLink = []) ∧
      OpenGraphResolver docSingleLink ≠ "" :=
  ⟨by decide, (OpenGraphResolver_empty_iff docSingleLink).2.2.2 (by decide), by decide⟩

/-- C6: when the scan yields exactly one candidate, `OpenGraphResolver`
returns its url, which is the string of the value attribute of the matched
element, under the `http://` normalisation only; family and `large|big` play no
part. -/
theorem OpenGraphResolver_single (a : Article) (c : ogImage) (h : scanMeta a = [c]) :
    OpenGraphResolver a = httpPrefix c.url ∧
      ∃ tag ∈ Union (Find a.Doc "meta") (Find a.Doc "link"), ∃ t ∈ ogTags,
        (tag.Attr t.attributeName).2 = true ∧ (tag.Attr t.attributeName).1 = t.name ∧
        (tag.Attr t.value).2 = true ∧ c.url = (tag.Attr t.value).1 ∧ c.tpe = t.tpe := by
  constructor
  · unfold OpenGraphResolver
    rw [openGraphTopImage_single a c h]
  · have hc : c ∈ scanMeta a := by rw [h]; simp
    obtain ⟨tag, htag, hcm⟩ := (mem_scanMeta a c).mp hc
    obtain ⟨t, ht, h1, h2, h3, rfl⟩ := (mem_ogMatches tag c).mp hcm
    exact ⟨tag, htag, t, ht, h1, h2, h3, rfl, rfl⟩

/-- Witness of C6: a single Open Graph image with a protocol-relative url -/
theorem OpenGraphResolver_single_witness :
    scanMeta docSingleOpenGraph =
        [{ url := "//cdn.example.com/x.jpg", tpe := "facebook", score := 0 }] ∧
      OpenGraphResolver docSingleOpenGraph = httpPrefix "//cdn.example.com/x.jpg" ∧
      OpenGraphResolver docSingleOpenGraph = "http:////cdn.example.com/x.jpg" :=
  ⟨by decide,
    (OpenGraphResolver_single docSingleOpenGraph
      { url := "//cdn.example.com/x.jpg", tpe := "facebook", score := 0 } (by decide)).1,
    by decide⟩

/-- Witness of C7: the result for the two small images is the normalised
source of one of them -/
theorem WebPageResolver_winner_is_candidate_witness :
    WebPageResolver docSmallSurfaces ≠ "" ∧
      ∃ tag ∈ Find docSmallSurfaces.Doc "img", resolveSrc tag ≠ "" ∧ 0 ≤ score tag ∧
        WebPageResolver docSmallSurfaces = httpPrefix (resolveSrc tag) ∧
        (WebPageResolver docSmallSurfaces = resolveSrc tag ∨
          WebPageResolver docSmallSurfaces = "http://" ++ resolveSrc tag) :=
  ⟨by decide, WebPageResolver_winner_is_candidate docSmallSurfaces (by decide)⟩

/-- C8: the result of either resolver is empty or starts with `http`; a
non-empty winning url that does not start with `http` is returned with
`http://` prepended, and a winning url that starts with `http` is returned
unchanged. -/
theorem resolvers_normalise_http (a : Article) :
    (WebPageResolver a = "" ∨ HasPrefix (WebPageResolver a) "http" = true) ∧
      (OpenGraphResolver a = "" ∨ HasPrefix (OpenGraphResolver a) "http" = true) ∧
      (webPageTopImage a ≠ "" → HasPrefix (webPageTopImage a) "http" = false →
        WebPageResolver a = "http://" ++ webPageTopImage a) ∧
      (HasPrefix (webPageTopImage a) "http" = true → WebPageResolver a = webPageTopImage a) ∧
      (openGraphTopImage a ≠ "" → HasPrefix (openGraphTopImage a) "http" = false →
        OpenGraphResolver a = "http://" ++ openGraphTopImage a) ∧
      (HasPrefix (openGraphTopImage a) "http" = true →
        OpenGraphResolver a = openGraphTopImage a) := by
  rw [WebPageResolver_eq_httpPrefix]
  unfold OpenGraphResolver
  refine ⟨httpPrefix_ok _, httpPrefix_ok _, ?_, ?_, ?_, ?_⟩
  · intro h1 h2; simp [httpPrefix, h1, h2]
  · intro h; simp [httpPrefix, h]
  · intro h1 h2; simp [httpPrefix, h1, h2]
  · intro h; simp [httpPrefix, h]

/-- Witness of C8: `//cdn.example.com/x.jpg` comes back from either resolver
as `http:////cdn.example.com/x.jpg`, and an `https` url comes back unchanged -/
theorem resolvers_normalise_http_witness :
    (webPageTopImage docProtocolRelative = "//cdn.example.com/x.jpg" ∧
        WebPageResolver docProtocolRelative = "http://" ++ webPageTopImage docProtocolRelative ∧
        WebPageResolver docProtocolRelative = "http:////cdn.example.com/x.jpg") ∧
      (openGraphTopImage docSingleOpenGraph = "//cdn.example.com/x.jpg" ∧
        OpenGraphResolver docSingleOpenGraph
          = "http://" ++ openGraphTopImage docSingleOpenGraph ∧
        OpenGraphResolver docSingleOpenGraph = "http:////cdn.example.com/x.jpg") ∧
      (HasPrefix (webPageTopImage docAbsolute) "http" = true ∧
        WebPageResolver docAbsolute = webPageTopImage docAbsolute) ∧
      (HasPrefix (openGraphTopImage docSingleLink) "http" = true ∧
        OpenGraphResolver docSingleLink = openGraphTopImage docSingleLink) :=
  ⟨⟨by decide, (resolvers_normalise_http docProtocolRelative).2.2.1 (by decide) (by decide),
      by decide⟩,
    ⟨by decide, (resolvers_normalise_http docSingleOpenGraph).2.2.2.2.1 (by decide) (by decide),
      by decide⟩,
    ⟨by decide, (resolvers_normalise_http docAbsolute).2.2.2.1 (by decide)⟩,
    ⟨by decide, (resolvers_normalise_http docSingleLink).2.2.2.2.2 (by decide)⟩⟩

/-! ### Rule table -/

theorem foldl_rule_acc (rs : List (Re × Int)) (src : String) (init : Int) :
    rs.foldl (fun tagScore r => if r.1.MatchString src then tagScore + r.2 else tagScore) init
      = init + ruleSum rs src := by
  unfold ruleSum
  induction rs generalizing init with
  | nil => simp
  | cons r rest ih =>
    obtain ⟨re, w⟩ := r
    rw [List.foldl_cons, List.foldl_cons, ih, ih (if re.MatchString src then 0 + w else 0)]
    by_cases hm : re.MatchString src = true
    · simp only [hm, if_true]; ring
    · simp [hm]

theorem ruleSum_nil (src : String) : ruleSum [] src = 0 := rfl

theorem ruleSum_cons (r : Re × Int) (rs : List (Re × Int)) (src : String) :
    ruleSum (r :: rs) src = (if r.1.MatchString src then r.2 else 0) + ruleSum rs src := by
  obtain ⟨re, w⟩ := r
  show List.foldl _ _ _ = _
  rw [List.foldl_cons, foldl_rule_acc]
  by_cases hm : re.MatchString src = true
  · simp only [hm, if_true]; ring
  · simp [hm]

theorem ruleSum_append (l1 l2 : List (Re × Int)) (src : String) :
    ruleSum (l1 ++ l2) src = ruleSum l1 src + ruleSum l2 src := by
  induction l1 with
  | nil => simp [ruleSum_nil]
  | cons r rest ih => rw [List.cons_append, ruleSum_cons, ruleSum_cons, ih]; ring

/-- Rules that all weigh `-1` contribute minus the number of them that match -/
theorem ruleSum_all_minus_one (rs : List (Re × Int)) (src : String)
    (h : ∀ r ∈ rs, r.2 = -1) :
    ruleSum rs src = -((rs.countP (fun r => r.1.MatchString src) : Nat) : Int) := by
  induction rs with
  | nil => simp [ruleSum_nil]
  | cons r rest ih =>
    have hr : r.2 = -1 := h r (List.mem_cons_self _ _)
    obtain ⟨re, w⟩ := r
    simp only at hr
    subst hr
    rw [ruleSum_cons, ih (fun x hx => h x (List.mem_cons_of_mem _ hx)), List.countP_cons]
    by_cases hm : re.MatchString src = true
    · simp only [hm, if_true]; push_cast; ring
    · simp [hm]

/-- C9: evaluation at the source `http://example.com/upload/icon.png`.
Three rules match: `upload` (+1), `(?i)icon` (-1), and the junk rule (-1),
whose alternative `.ico` matches `/ico` because `.` is the wildcard; the
source does not contain the literal `.ico`.  The score is -1. -/
theorem score_upload_icon :
    rules.map (fun r => r.1.MatchString (resolveSrc tagUploadIcon)) =
        [false, true, false, false, false, true, false, false, false, false,
         false, false, false, false, true] ∧
      (Re.word false ".ico".data).MatchString (resolveSrc tagUploadIcon) = true ∧
      Contains (resolveSrc tagUploadIcon) ".ico" = false ∧
      (tagUploadIcon.Attr "alt").2 = false ∧
      score tagUploadIcon = -1 := by
  decide

/-- Counterexample to C10 as stated: `Logo_Spinner` matches the rules
`(?i)logo` and `(?i)spinner` and no other rule, and scores -2. -/
theorem score_logo_spinner :
    rules.map (fun r => r.1.MatchString (resolveSrc tagLogoSpinner)) =
        [false, false, false, false, false, false, true, true, false, false,
         false, false, false, false, false] ∧
      ruleSum otherRules (resolveSrc tagLogoSpinner) = 0 ∧
      score tagLogoSpinner = -2 ∧
      score tagLogoSpinner ≠ -1 := by
  decide

/-- C10 (amended): `icon`, `logo`, `spinner`, `loading` and `ads`, each
matched case-insensitively, are five rules of weight -1 each; for every source
they contribute minus the number of them that occur, on top of the sum of the
other ten rules. -/
theorem ruleSum_fold_rules (src : String) :
    foldRules =
        [(Re.word true "icon".data, -1), (Re.word true "logo".data, -1),
         (Re.word true "spinner".data, -1), (Re.word true "loading".data, -1),
         (Re.word true "ads".data, -1)] ∧
      ruleSum rules src =
        ruleSum otherRules src
          - ((foldRules.countP (fun r => r.1.MatchString src) : Nat) : Int) := by
  refine ⟨rfl, ?_⟩
  have hsplit : rules = rules.take 5 ++ (foldRules ++ rules.drop 10) := by decide
  have hw : ∀ r ∈ foldRules, r.2 = -1 := by decide
  conv_lhs => rw [hsplit]
  rw [ruleSum_append, ruleSum_append, ruleSum_all_minus_one foldRules src hw]
  unfold otherRules
  rw [ruleSum_append]
  omega


/-! ### The matcher against the reference semantics -/

theorem Re.not_matches_nothing (s : List Char) : ¬ Re.Matches .nothing s := by
  intro h; cases h

theorem Re.matches_eps_iff (s : List Char) : Re.Matches .eps s ↔ s = [] := by
  constructor
  · intro h; cases h; rfl
  · rintro rfl; exact Re.Matches.eps

theorem Re.matches_seq_iff (a b : Re) (s : List Char) :
    Re.Matches (.seq a b) s ↔ ∃ s1 s2, s = s1 ++ s2 ∧ Re.Matches a s1 ∧ Re.Matches b s2 := by
  constructor
  · intro h
    cases h with
    | seq ha hb => exact ⟨_, _, rfl, ha, hb⟩
  · rintro ⟨s1, s2, rfl, ha, hb⟩
    exact Re.Matches.seq ha hb

theorem Re.matches_alt_iff (a b : Re) (s : List Char) :
    Re.Matches (.alt a b) s ↔ Re.Matches a s ∨ Re.Matches b s := by
  constructor
  · intro h
    cases h with
    | altLeft _ ha => exact Or.inl ha
    | altRight _ hb => exact Or.inr hb
  · rintro (ha | hb)
    · exact Re.Matches.altLeft b ha
    · exact Re.Matches.altRight a hb

theorem Re.matches_mkSeq_iff (a b : Re) (s : List Char) :
    Re.Matches (Re.mkSeq a b) s ↔ Re.Matches (.seq a b) s := by
  cases a <;> simp only [Re.mkSeq]
  · constructor
    · intro h; exact absurd h (Re.not_matches_nothing s)
    · intro h
      obtain ⟨s1, _, _, ha, _⟩ := (Re.matches_seq_iff _ _ _).mp h
      exact absurd ha (Re.not_matches_nothing s1)
  · rw [Re.matches_seq_iff]
    constructor
    · intro h; exact ⟨[], s, rfl, Re.Matches.eps, h⟩
    · rintro ⟨s1, s2, rfl, ha, hb⟩
      rw [(Re.matches_eps_iff s1).mp ha]
      exact hb

theorem Re.matches_mkAlt_iff (a b : Re) (s : List Char) :
    Re.Matches (Re.mkAlt a b) s ↔ Re.Matches (.alt a b) s := by
  have hl : ∀ r : Re, Re.Matches r s ↔ Re.Matches (.alt .nothing r) s := by
    intro r
    rw [Re.matches_alt_iff]
    constructor
    · exact Or.inr
    · rintro (h | h)
      · exact absurd h (Re.not_matches_nothing s)
      · exact h
  have hr : ∀ r : Re, Re.Matches r s ↔ Re.Matches (.alt r .nothing) s := by
    intro r
    rw [Re.matches_alt_iff]
    constructor
    · exact Or.inl
    · rintro (h | h)
      · exact h
      · exact absurd h (Re.not_matches_nothing s)
  cases a <;> cases b <;> simp only [Re.mkAlt] <;> first | exact hl _ | exact hr _

theorem Re.nullable_iff (r : Re) : r.nullable = true ↔ Re.Matches r [] := by
  induction r with
  | nothing => simp [Re.nullable, Re.not_matches_nothing]
  | eps => simp [Re.nullable, Re.matches_eps_iff]
  | lit c => simp only [Re.nullable]; constructor <;> intro h <;> cases h
  | fold c => simp only [Re.nullable]; constructor <;> intro h <;> cases h
  | any => simp only [Re.nullable]; constructor <;> intro h <;> cases h
  | seq a b iha ihb =>
    simp only [Re.nullable, Bool.and_eq_true, iha, ihb, Re.matches_seq_iff]
    constructor
    · rintro ⟨ha, hb⟩; exact ⟨[], [], rfl, ha, hb⟩
    · rintro ⟨s1, s2, h, ha, hb⟩
      have h' := List.append_eq_nil.mp h.symm
      rw [h'.1] at ha; rw [h'.2] at hb
      exact ⟨ha, hb⟩
  | alt a b iha ihb =>
    simp only [Re.nullable, Bool.or_eq_true, iha, ihb, Re.matches_alt_iff]
  | star a _ =>
    simp only [Re.nullable, true_iff]
    exact Re.Matches.starNil a

theorem Re.matches_star_cons {a : Re} {x : Char} {s : List Char}
    (h : Re.Matches (.star a) (x :: s)) :
    ∃ s1 s2, s = s1 ++ s2 ∧ Re.Matches a (x :: s1) ∧ Re.Matches (.star a) s2 := by
  generalize hr : Re.star a = r at h
  generalize hl : x :: s = l at h
  induction h generalizing s with
  | eps => cases hr
  | lit => cases hr
  | fold => cases hr
  | any => cases hr
  | seq => cases hr
  | altLeft => cases hr
  | altRight => cases hr
  | starNil => cases hl
  | @starCons a0 u t ha hs _ ih =>
    cases hr
    cases u with
    | nil =>
      simp only [List.nil_append] at hl
      exact ih rfl hl
    | cons y u0 =>
      simp only [List.cons_append, List.cons.injEq] at hl
      obtain ⟨rfl, rfl⟩ := hl
      exact ⟨u0, t, rfl, ha, hs⟩

theorem Re.deriv_iff (r : Re) (x : Char) (s : List Char) :
    Re.Matches (r.deriv x) s ↔ Re.Matches r (x :: s) := by
  induction r generalizing s with
  | nothing =>
    simp only [Re.deriv]
    constructor <;> intro h <;> cases h
  | eps =>
    simp only [Re.deriv]
    constructor <;> intro h <;> cases h
  | lit c =>
    simp only [Re.deriv]
    by_cases hx : x = c
    · subst hx
      simp only [if_true, Re.matches_eps_iff]
      constructor
      · rintro rfl; exact Re.Matches.lit x
      · intro h; cases h; rfl
    · simp only [hx, if_false]
      constructor
      · intro h; cases h
      · intro h; cases h; exact absurd rfl hx
  | fold c =>
    simp only [Re.deriv]
    by_cases hx : foldEq c x = true
    · simp only [hx, if_true, Re.matches_eps_iff]
      constructor
      · rintro rfl; exact Re.Matches.fold c x hx
      · intro h; cases h; rfl
    · simp only [hx]
      constructor
      · intro h; cases h
      · intro h; cases h with
        | fold _ _ h' => exact absurd h' hx
  | any =>
    simp only [Re.deriv]
    by_cases hx : x = '\n'
    · simp only [hx, if_true]
      constructor
      · intro h; cases h
      · intro h; cases h with
        | any _ h' => exact absurd rfl h'
    · simp only [hx, if_false, Re.matches_eps_iff]
      constructor
      · rintro rfl; exact Re.Matches.any x hx
      · intro h; cases h; rfl
  | seq a b iha ihb =>
    have hcons : Re.Matches (.seq a b) (x :: s) ↔
        (∃ s1 s2, s = s1 ++ s2 ∧ Re.Matches a (x :: s1) ∧ Re.Matches b s2) ∨
          (Re.Matches a [] ∧ Re.Matches b (x :: s)) := by
      rw [Re.matches_seq_iff]
      constructor
      · rintro ⟨t1, t2, h, ha, hb⟩
        cases t1 with
        | nil =>
          simp only [List.nil_append] at h
          rw [← h] at hb
          exact Or.inr ⟨ha, hb⟩
        | cons y t1 =>
          simp only [List.cons_append, List.cons.injEq] at h
          obtain ⟨rfl, rfl⟩ := h
          exact Or.inl ⟨t1, t2, rfl, ha, hb⟩
      · rintro (⟨s1, s2, rfl, ha, hb⟩ | ⟨ha, hb⟩)
        · exact ⟨x :: s1, s2, rfl, ha, hb⟩
        · exact ⟨[], x :: s, rfl, ha, hb⟩
    have hleft : Re.Matches (Re.mkSeq (a.deriv x) b) s ↔
        ∃ s1 s2, s = s1 ++ s2 ∧ Re.Matches a (x :: s1) ∧ Re.Matches b s2 := by
      rw [Re.matches_mkSeq_iff, Re.matches_seq_iff]
      constructor
      · rintro ⟨s1, s2, h, ha, hb⟩
        exact ⟨s1, s2, h, (iha s1).mp ha, hb⟩
      · rintro ⟨s1, s2, h, ha, hb⟩
        exact ⟨s1, s2, h, (iha s1).mpr ha, hb⟩
    rw [hcons]
    simp only [Re.deriv]
    by_cases hn : a.nullable = true
    · simp only [hn, if_true]
      rw [Re.matches_mkAlt_iff, Re.matches_alt_iff, hleft, ihb]
      have hnil := (Re.nullable_iff a).mp hn
      constructor
      · rintro (h | h)
        · exact Or.inl h
        · exact Or.inr ⟨hnil, h⟩
      · rintro (h | ⟨_, h⟩)
        · exact Or.inl h
        · exact Or.inr h
    · rw [if_neg hn, hleft]
      have hnil : ¬ Re.Matches a [] := fun h => hn ((Re.nullable_iff a).mpr h)
      constructor
      · intro h; exact Or.inl h
      · rintro (h | ⟨h, _⟩)
        · exact h
        · exact absurd h hnil
  | alt a b iha ihb =>
    simp only [Re.deriv]
    rw [Re.matches_mkAlt_iff, Re.matches_alt_iff, Re.matches_alt_iff, iha, ihb]
  | star a iha =>
    simp only [Re.deriv]
    rw [Re.matches_mkSeq_iff, Re.matches_seq_iff]
    constructor
    · rintro ⟨s1, s2, rfl, ha, hs⟩
      exact Re.Matches.starCons ((iha s1).mp ha) hs
    · intro h
      obtain ⟨s1, s2, hs, ha, hst⟩ := Re.matches_star_cons h
      exact ⟨s1, s2, hs, (iha s1).mpr ha, hst⟩

theorem Re.isNothing_iff (r : Re) : r.isNothing = true ↔ r = .nothing := by
  cases r <;> simp [Re.isNothing]

/-- `matchPrefix` decides whether some prefix of the list is a match -/
theorem Re.matchPrefix_iff (r : Re) (s : List Char) :
    r.matchPrefix s = true ↔ ∃ p q, s = p ++ q ∧ Re.Matches r p := by
  induction s generalizing r with
  | nil =>
    simp only [Re.matchPrefix, Re.nullable_iff]
    constructor
    · intro h; exact ⟨[], [], rfl, h⟩
    · rintro ⟨p, q, h, hm⟩
      rw [(List.append_eq_nil.mp h.symm).1] at hm
      exact hm
  | cons c cs ih =>
    simp only [Re.matchPrefix, Bool.or_eq_true, Bool.and_eq_true, Bool.not_eq_true',
      Re.nullable_iff, ih, Re.deriv_iff]
    constructor
    · rintro (h | ⟨_, p, q, hs, hm⟩)
      · exact ⟨[], c :: cs, rfl, h⟩
      · exact ⟨c :: p, q, by rw [hs]; rfl, hm⟩
    · rintro ⟨p, q, hs, hm⟩
      cases p with
      | nil => exact Or.inl hm
      | cons y p =>
        simp only [List.cons_append, List.cons.injEq] at hs
        obtain ⟨rfl, rfl⟩ := hs
        refine Or.inr ⟨?_, p, q, rfl, hm⟩
        cases hnot : r.isNothing with
        | false => rfl
        | true =>
          rw [(Re.isNothing_iff r).mp hnot] at hm
          exact absurd hm (Re.not_matches_nothing _)

/-- `matchAnywhere` decides whether some substring of the list is a match -/
theorem Re.matchAnywhere_iff (r : Re) (s : List Char) :
    r.matchAnywhere s = true ↔ ∃ pre p post, s = pre ++ p ++ post ∧ Re.Matches r p := by
  induction s with
  | nil =>
    simp only [Re.matchAnywhere, Re.nullable_iff]
    constructor
    · intro h; exact ⟨[], [], [], rfl, h⟩
    · rintro ⟨pre, p, post, h, hm⟩
      have h1 := (List.append_eq_nil.mp h.symm).1
      rw [(List.append_eq_nil.mp h1).2] at hm
      exact hm
  | cons c cs ih =>
    simp only [Re.matchAnywhere, Bool.or_eq_true, Re.matchPrefix_iff, ih]
    constructor
    · rintro (⟨p, q, hs, hm⟩ | ⟨pre, p, post, hs, hm⟩)
      · exact ⟨[], p, q, by simpa using hs, hm⟩
      · exact ⟨c :: pre, p, post, by simp [hs], hm⟩
    · rintro ⟨pre, p, post, hs, hm⟩
      cases pre with
      | nil => exact Or.inl ⟨p, post, by simpa using hs, hm⟩
      | cons y pre =>
        simp only [List.cons_append, List.cons.injEq] at hs
        exact Or.inr ⟨pre, p, post, hs.2, hm⟩

/-- `MatchString` holds exactly when the string has a substring that matches
the expression in the reference semantics -/
theorem Re.MatchString_iff (r : Re) (s : String) :
    r.MatchString s = true ↔ ∃ pre p post, s.data = pre ++ p ++ post ∧ Re.Matches r p :=
  Re.matchAnywhere_iff r s.data


/-! ### `strconv.Atoi` and the surface -/

theorem digitVal_le {c : Char} {d : Nat} (h : digitVal c = some d) : d ≤ 9 := by
  unfold digitVal at h
  split at h
  · rename_i hc
    simp only [Option.some.injEq] at h
    omega
  · cases h

/-- A character that is not a digit keeps the loop of `ParseUint` from
ending with a value -/
theorem parseUintLoop_not_ok (ds : List Char) (n m : Nat)
    (h : ds.all (fun c => (digitVal c).isSome) = false) :
    parseUintLoop n ds ≠ .ok m := by
  induction ds generalizing n with
  | nil => simp at h
  | cons c cs ih =>
    unfold parseUintLoop
    cases hd : digitVal c with
    | none => simp
    | some d =>
      have hcs : cs.all (fun c => (digitVal c).isSome) = false := by
        simpa [hd] using h
      simp only
      split
      · simp
      · split
        · simp
        · exact ih _ hcs

/-- Nineteen digits or fewer never raise a range error -/
theorem parseUintLoop_no_range (ds : List Char) (n j : Nat) (hn : n < 10 ^ j)
    (hlen : j + ds.length ≤ 19) : parseUintLoop n ds ≠ .rangeError := by
  induction ds generalizing n j with
  | nil => simp [parseUintLoop]
  | cons c cs ih =>
    unfold parseUintLoop
    cases hd : digitVal c with
    | none => simp
    | some d =>
      have hd9 := digitVal_le hd
      simp only [List.length_cons] at hlen
      have hj : j ≤ 18 := by omega
      have hpow : 10 ^ j ≤ 10 ^ 18 := Nat.pow_le_pow_right (by norm_num) hj
      have hn18 : n < 1000000000000000000 := by
        have : (10 : Nat) ^ 18 = 1000000000000000000 := by norm_num
        omega
      have hmax : maxUint64 = 18446744073709551615 := by decide
      have hmod : (n * 10 + d) % 2 ^ 64 = n * 10 + d := by
        apply Nat.mod_eq_of_lt
        have : (2 : Nat) ^ 64 = 18446744073709551616 := by norm_num
        omega
      simp only [hmod, hmax]
      rw [if_neg (by omega), if_neg (by omega)]
      apply ih (n * 10 + d) (j + 1)
      · have : 10 ^ (j + 1) = 10 ^ j * 10 := pow_succ 10 j
        omega
      · omega

/-- A string of at most nineteen characters that is not a numeral makes
`Atoi` return 0 -/
theorem Atoi_of_not_numeral (s : String) (h : isNumeral s = false)
    (hlen : s.data.length ≤ 19) : Atoi s = 0 := by
  unfold isNumeral at h
  unfold Atoi ParseInt
  cases hs : s.data with
  | nil => rfl
  | cons c cs =>
    rw [hs] at h hlen
    simp only at h ⊢
    generalize hrest : (if c = '+' ∨ c = '-' then cs else c :: cs) = rest at h ⊢
    have hrl : rest.length ≤ 19 := by
      rw [← hrest]
      split <;> simp only [List.length_cons] at hlen ⊢ <;> omega
    have hsyn : ParseUint rest = .syntaxError := by
      cases rest with
      | nil => rfl
      | cons y ys =>
        unfold ParseUint
        simp only [List.isEmpty_cons, Bool.not_false, Bool.true_and] at h
        have h1 := parseUintLoop_not_ok (y :: ys) 0
        have h2 := parseUintLoop_no_range (y :: ys) 0 0 (by norm_num) (by omega)
        cases hres : parseUintLoop 0 (y :: ys) with
        | syntaxError => rfl
        | rangeError => exact absurd hres h2
        | ok m => exact absurd hres (h1 m h)
    simp [hsyn]

theorem wrapInt_of_range (x : Int) (h1 : minInt ≤ x) (h2 : x ≤ maxInt) : wrapInt x = x := by
  have hmin : minInt = -(2 ^ 63) := rfl
  have hmax : maxInt = 2 ^ 63 - 1 := rfl
  rw [hmin] at h1
  rw [hmax] at h2
  unfold wrapInt
  rw [Int.emod_eq_of_lt (by omega) (by omega)]
  omega

theorem scanStep_of_src {tag : Node} (hsrc : resolveSrc tag ≠ "") (st : ScanState) :
    scanStep (320 * 200) st tag =
      { candidates := st.candidates ++ (toCandidate tag).toList,
        significantSurfaceCount :=
          st.significantSurfaceCount + (if surfaceOf tag > 320 * 200 then 1 else 0) } := by
  by_cases hsc : 0 ≤ score tag <;> by_cases hsf : (64000 : Int) < surfaceOf tag <;>
    simp [scanStep, toCandidate, hsrc, hsc, hsf]

/-- Counterexample to C11 as stated: with `width=""` present and
`height="5"` both attributes are declared, the empty string counts as 0, and
the claimed surface is `0 * 5 = 0`, yet the surface is 5; likewise `width="7"`
with `height=""` gives 7.  And a width of twenty digits `9` followed by `px`
is no numeral, yet it counts as the largest `int`, not as 0. -/
theorem surfaceOf_empty_attribute :
    tagEmptyWidth.Attr "width" = ("", true) ∧ tagEmptyWidth.Attr "height" = ("5", true) ∧
      resolveSrc tagEmptyWidth ≠ "" ∧
      Atoi "" = 0 ∧ Atoi "5" = 5 ∧
      surfaceOf tagEmptyWidth = 5 ∧ surfaceOf tagEmptyWidth ≠ Atoi "" * Atoi "5" ∧
      tagEmptyHeight.Attr "width" = ("7", true) ∧ tagEmptyHeight.Attr "height" = ("", true) ∧
      surfaceOf tagEmptyHeight = 7 ∧ surfaceOf tagEmptyHeight ≠ Atoi "7" * Atoi "" ∧
      isNumeral (tagOverflowWidth.Attr "width").1 = false ∧
      surfaceOf tagOverflowWidth = 9223372036854775807 := by
  decide

/-- C11 (amended): for an image element with a resolved source, the surface
that `WebPageResolver` counts and stores is `width * height` when both
attribute values are non-empty (the product being within `int`), `width` when
only the width value is non-empty, `height` when only the height value is
non-empty, and 0 when both are empty or absent; `width` and `height` are the
values `strconv.Atoi` gives the strings, 0 for a string of at most nineteen
characters that is not a numeral. -/
theorem surfaceOf_by_sizes (tag : Node) (hsrc : resolveSrc tag ≠ "") :
    (∀ st, (scanStep (320 * 200) st tag).significantSurfaceCount =
        st.significantSurfaceCount + (if surfaceOf tag > 320 * 200 then 1 else 0)) ∧
      (∀ st, 0 ≤ score tag → (scanStep (320 * 200) st tag).candidates =
        st.candidates ++
          [{ url := resolveSrc tag, surface := surfaceOf tag, score := score tag }]) ∧
      ((tag.Attr "width").1 ≠ "" → (tag.Attr "height").1 ≠ "" →
        minInt ≤ Atoi (tag.Attr "width").1 * Atoi (tag.Attr "height").1 →
        Atoi (tag.Attr "width").1 * Atoi (tag.Attr "height").1 ≤ maxInt →
        surfaceOf tag = Atoi (tag.Attr "width").1 * Atoi (tag.Attr "height").1) ∧
      ((tag.Attr "width").1 ≠ "" → (tag.Attr "height").1 = "" →
        surfaceOf tag = Atoi (tag.Attr "width").1) ∧
      ((tag.Attr "width").1 = "" → (tag.Attr "height").1 ≠ "" →
        surfaceOf tag = Atoi (tag.Attr "height").1) ∧
      ((tag.Attr "width").1 = "" → (tag.Attr "height").1 = "" → surfaceOf tag = 0) ∧
      (∀ k, (tag.Attr k).2 = false → (tag.Attr k).1 = "") ∧
      (isNumeral (tag.Attr "width").1 = false → (tag.Attr "width").1.data.length ≤ 19 →
        Atoi (tag.Attr "width").1 = 0) ∧
      (isNumeral (tag.Attr "height").1 = false → (tag.Attr "height").1.data.length ≤ 19 →
        Atoi (tag.Attr "height").1 = 0) := by
  refine ⟨?_, ?_, ?_, ?_, ?_, ?_, ?_, Atoi_of_not_numeral _, Atoi_of_not_numeral _⟩
  · intro st
    rw [scanStep_of_src hsrc]
  · intro st hsc
    rw [scanStep_of_src hsrc, toCandidate_of hsrc hsc]
    rfl
  · intro hw hh h1 h2
    unfold surfaceOf
    simp only [hw, hh, ne_eq, not_false_eq_true, if_true]
    exact wrapInt_of_range _ h1 h2
  · intro hw hh
    unfold surfaceOf
    simp [hw, hh]
  · intro hw hh
    unfold surfaceOf
    simp [hw, hh]
  · intro hw hh
    unfold surfaceOf
    simp [hw, hh]
  · intro k hk
    unfold Node.Attr at hk ⊢
    cases hl : tag.attrs.lookup k with
    | none => rfl
    | some v => rw [hl] at hk; cases hk

/-- Witness of C11 (amended): width 300 and height 200 give 60000, and a
width of `12px` counts as 0 -/
theorem surfaceOf_by_sizes_witness :
    resolveSrc tagBothSizes ≠ "" ∧
      surfaceOf tagBothSizes = Atoi "300" * Atoi "200" ∧ surfaceOf tagBothSizes = 60000 ∧
      isNumeral "12px" = false ∧ Atoi (tagPixelWidth.Attr "width").1 = 0 ∧
      surfaceOf tagPixelWidth = 0 :=
  ⟨by decide,
    (surfaceOf_by_sizes tagBothSizes (by decide)).2.2.1 (by decide) (by decide) (by decide)
      (by decide),
    by decide, by decide,
    (surfaceOf_by_sizes tagPixelWidth (by decide)).2.2.2.2.2.2.2.1 (by decide) (by decide),
    by decide⟩

/-- Counterexample to C12 as stated: a width of `-5` with a height of `3`
gives a candidate of surface -15, and a width and height of `3037000500` each
give a candidate whose product wrapped around to a negative surface. -/
theorem candidate_surface_negative :
    (scanImgs docNegativeProduct).candidates =
        [{ url := "a.jpg", surface := -15, score := 0 }] ∧
      (∃ c ∈ (scanImgs docNegativeProduct).candidates, c.surface < 0) ∧
      (∃ c ∈ (scanImgs docOverflow).candidates, c.surface < 0) := by
  decide

/-- C12 (amended): every candidate that `WebPageResolver` builds is built
from an image element of the document, and it has a surface of at least 0
provided that, for the element it is built from, the values of the width and
height strings are not negative and their product is at most the largest
`int`. -/
theorem candidate_surface_nonneg (a : Article) :
    (∀ c ∈ (scanImgs a).candidates, ∃ tag ∈ Find a.Doc "img",
        resolveSrc tag ≠ "" ∧ 0 ≤ score tag ∧
        c = { url := resolveSrc tag, surface := surfaceOf tag, score := score tag }) ∧
      (∀ c ∈ (scanImgs a).candidates, ∀ tag ∈ Find a.Doc "img",
        c = { url := resolveSrc tag, surface := surfaceOf tag, score := score tag } →
        0 ≤ Atoi (tag.Attr "width").1 → 0 ≤ Atoi (tag.Attr "height").1 →
        Atoi (tag.Attr "width").1 * Atoi (tag.Attr "height").1 ≤ maxInt →
        0 ≤ c.surface) := by
  constructor
  · intro c hc
    rw [scanImgs_candidates] at hc
    obtain ⟨tag, hmem, htag⟩ := List.mem_filterMap.mp hc
    obtain ⟨hsrc, hsc, _, _, _⟩ := toCandidate_some htag
    rw [toCandidate_of hsrc hsc] at htag
    exact ⟨tag, hmem, hsrc, hsc, (Option.some.inj htag).symm⟩
  · intro c _ tag _ hctag hw hh hp
    rw [hctag]
    show 0 ≤ surfaceOf tag
    unfold surfaceOf
    by_cases hwe : (tag.Attr "width").1 = "" <;> by_cases hhe : (tag.Attr "height").1 = ""
    · simp [hwe, hhe]
    · simp only [hwe, hhe, ne_eq, not_true_eq_false, not_false_eq_true, if_true, if_false]
      exact hh
    · simp only [hwe, hhe, ne_eq, not_true_eq_false, not_false_eq_true, if_true, if_false]
      exact hw
    · simp only [hwe, hhe, ne_eq, not_false_eq_true, if_true]
      have hnn : 0 ≤ Atoi (tag.Attr "width").1 * Atoi (tag.Attr "height").1 :=
        mul_nonneg hw hh
      rw [wrapInt_of_range _ (le_trans (by decide) hnn) hp]
      exact hnn

/-- Witness of C12 (amended): in a document with an image of width `5` and
an image of width `-5`, the candidate built from the first has a surface of at
least 0 -/
theorem candidate_surface_nonneg_witness :
    (scanImgs docMixedWidths).candidates =
        [{ url := "a.jpg", surface := 5, score := 0 },
         { url := "b.jpg", surface := -5, score := 0 }] ∧
      0 ≤ Atoi "5" ∧ 0 ≤ Atoi "" ∧ Atoi "5" * Atoi "" ≤ maxInt ∧
      0 ≤ ({ url := "a.jpg", surface := 5, score := 0 } : candidate).surface :=
  ⟨by decide, by decide, by decide, by decide,
    (candidate_surface_nonneg docMixedWidths).2 { url := "a.jpg", surface := 5, score := 0 }
      (by decide) ⟨"img", [("src", "a.jpg"), ("width", "5")]⟩ (by decide) (by decide)
      (by decide) (by decide) (by decide)⟩

/-! ### Score: alt penalty, source resolution, rule order -/

theorem containsChars_iff (sub s : List Char) :
    containsChars sub s = true ↔ ∃ pre post, s = pre ++ sub ++ post := by
  induction s with
  | nil =>
    simp only [containsChars, List.isEmpty_iff]
    constructor
    · rintro rfl; exact ⟨[], [], rfl⟩
    · rintro ⟨pre, post, h⟩
      have h1 := (List.append_eq_nil.mp h.symm).1
      exact (List.append_eq_nil.mp h1).2
  | cons c cs ih =>
    simp only [containsChars, Bool.or_eq_true, List.isPrefixOf_iff_prefix, ih]
    constructor
    · rintro (⟨post, h⟩ | ⟨pre, post, h⟩)
      · exact ⟨[], post, by simpa using h.symm⟩
      · exact ⟨c :: pre, post, by simp [h]⟩
    · rintro ⟨pre, post, h⟩
      cases pre with
      | nil => exact Or.inl ⟨post, by simpa using h.symm⟩
      | cons y pre =>
        simp only [List.cons_append, List.cons.injEq] at h
        exact Or.inr ⟨pre, post, h.2⟩

theorem ruleSum_eq_sum (rs : List (Re × Int)) (src : String) :
    ruleSum rs src = ((rs.filter (fun r => r.1.MatchString src)).map Prod.snd).sum := by
  induction rs with
  | nil => rfl
  | cons r rest ih =>
    rw [ruleSum_cons, ih]
    by_cases hm : r.1.MatchString src = true
    · simp [hm, List.filter_cons]
    · simp [hm, List.filter_cons]

theorem scoreIn_rules (tag : Node) : scoreIn rules tag = score tag := rfl

theorem score_of_src (tag : Node) (hsrc : resolveSrc tag ≠ "") :
    score tag =
      ruleSum rules (resolveSrc tag) -
        (if (tag.Attr "alt").2 = true ∧ Contains (tag.Attr "alt").1 "thumbnail" = true
          then 1 else 0) := by
  unfold score
  simp only [hsrc, if_false]
  by_cases h : ((tag.Attr "alt").2 && Contains (tag.Attr "alt").1 "thumbnail") = true
  · have h' := h
    simp only [Bool.and_eq_true] at h'
    simp [h, h']
  · have h' := h
    simp only [Bool.and_eq_true] at h'
    simp only [h, h', if_false]
    simp

/-- C13: for an image tag with a resolved source, `score` is the sum of the
weights of the rules that match the source, minus 1 when the `alt` attribute
is present and contains `thumbnail` (as a substring, once or several times),
and minus 0 otherwise. -/
theorem score_alt_penalty (tag : Node) (hsrc : resolveSrc tag ≠ "") :
    score tag =
        ruleSum rules (resolveSrc tag) -
          (if (tag.Attr "alt").2 = true ∧ Contains (tag.Attr "alt").1 "thumbnail" = true
            then 1 else 0) ∧
      ruleSum rules (resolveSrc tag) =
        ((rules.filter (fun r => r.1.MatchString (resolveSrc tag))).map Prod.snd).sum ∧
      (Contains (tag.Attr "alt").1 "thumbnail" = true ↔
        ∃ pre post, (tag.Attr "alt").1.data = pre ++ "thumbnail".data ++ post) :=
  ⟨score_of_src tag hsrc, ruleSum_eq_sum _ _, containsChars_iff _ _⟩

/-- Witness of C13: `thumbnail` occurs twice in `alt`, the penalty is 1 -/
theorem score_alt_penalty_witness :
    resolveSrc tagThumbnailAlt ≠ "" ∧
      ruleSum rules (resolveSrc tagThumbnailAlt) = 1 ∧
      score tagThumbnailAlt =
        ruleSum rules (resolveSrc tagThumbnailAlt) -
          (if (tagThumbnailAlt.Attr "alt").2 = true ∧
              Contains (tagThumbnailAlt.Attr "alt").1 "thumbnail" = true
            then 1 else 0) ∧
      score tagThumbnailAlt = 0 :=
  ⟨by decide, by decide, (score_alt_penalty tagThumbnailAlt (by decide)).1, by decide⟩

theorem Attr_absent (tag : Node) (k : String) (h : (tag.Attr k).2 = false) :
    (tag.Attr k).1 = "" := by
  unfold Node.Attr at h ⊢
  cases hl : tag.attrs.lookup k with
  | none => rfl
  | some v => rw [hl] at h; cases h

/-- C14: the source of an image element is the first non-empty value among
`src`, `data-src` and `data-lazy-src` (an absent attribute reads as the empty
string); it is the url of the candidate the scan builds for the element and
the string the rule table is applied to by `score`. -/
theorem resolveSrc_first_non_empty (tag : Node) :
    ((tag.Attr "src").1 ≠ "" → resolveSrc tag = (tag.Attr "src").1) ∧
      ((tag.Attr "src").1 = "" → (tag.Attr "data-src").1 ≠ "" →
        resolveSrc tag = (tag.Attr "data-src").1) ∧
      ((tag.Attr "src").1 = "" → (tag.Attr "data-src").1 = "" →
        resolveSrc tag = (tag.Attr "data-lazy-src").1) ∧
      (∀ k, (tag.Attr k).2 = false → (tag.Attr k).1 = "") ∧
      (∀ st, 0 ≤ score tag → (scanStep (320 * 200) st tag).candidates =
        st.candidates ++
          [{ url := resolveSrc tag, surface := surfaceOf tag, score := score tag }]) ∧
      (resolveSrc tag ≠ "" → score tag =
        ruleSum rules (resolveSrc tag) -
          (if (tag.Attr "alt").2 = true ∧ Contains (tag.Attr "alt").1 "thumbnail" = true
            then 1 else 0)) ∧
      (resolveSrc tag = "" → score tag = -1 ∧ ∀ st, scanStep (320 * 200) st tag = st) := by
  refine ⟨?_, ?_, ?_, Attr_absent tag, ?_, ?_, ?_⟩
  · intro h
    unfold resolveSrc
    simp [h]
  · intro h1 h2
    unfold resolveSrc
    simp [h1, h2]
  · intro h1 h2
    unfold resolveSrc
    simp [h1, h2]
  · intro st hsc
    have hsrc : resolveSrc tag ≠ "" := by
      intro he
      rw [score_of_empty_src he] at hsc
      omega
    rw [scanStep_of_src hsrc, toCandidate_of hsrc hsc]
    rfl
  · intro hsrc
    exact score_of_src tag hsrc
  · intro he
    refine ⟨score_of_empty_src he, ?_⟩
    intro st
    unfold scanStep
    simp [he]

/-- Witness of C14: `src` wins when it is not empty; with an empty `src`,
`data-src` wins over `data-lazy-src` -/
theorem resolveSrc_first_non_empty_witness :
    ((tagThreeSources.Attr "src").1 ≠ "" ∧ resolveSrc tagThreeSources = "s.jpg") ∧
      ((tagLazySources.Attr "src").1 = "" ∧ (tagLazySources.Attr "data-src").1 ≠ "" ∧
        resolveSrc tagLazySources = "d.jpg") ∧
      ((tagLazyOnly.Attr "src").1 = "" ∧ (tagLazyOnly.Attr "data-src").1 = "" ∧
        resolveSrc tagLazyOnly = "l.jpg") :=
  ⟨⟨by decide, ((resolveSrc_first_non_empty tagThreeSources).1 (by decide)).trans (by decide)⟩,
    ⟨by decide, by decide,
      ((resolveSrc_first_non_empty tagLazySources).2.1 (by decide) (by decide)).trans
        (by decide)⟩,
    ⟨by decide, by decide,
      ((resolveSrc_first_non_empty tagLazyOnly).2.2.1 (by decide) (by decide)).trans
        (by decide)⟩⟩

/-! ### Elements without effect on the page scan -/

theorem WebPageResolver_congr {a b : Article} (h : scanImgs a = scanImgs b) :
    WebPageResolver a = WebPageResolver b := by
  unfold WebPageResolver
  rw [h]

/-- An element that is neither a candidate nor counted can be taken out of
the document without changing the state the scan ends in -/
theorem scanImgs_remove (pre post : List Node) (tag : Node)
    (hc : toCandidate tag = none) (hs : isSignificant tag = false) :
    scanImgs ⟨pre ++ tag :: post⟩ = scanImgs ⟨pre ++ post⟩ := by
  unfold scanImgs
  rw [foldl_scanStep, foldl_scanStep]
  simp only [Find, List.filter_append, List.filter_cons]
  by_cases ht : (tag.tag == "img") = true
  · simp [ht, List.filterMap_append, List.filterMap_cons, hc, List.countP_append,
      List.countP_cons, hs]
  · simp [ht]

theorem sourceless_inert {tag : Node} (h : resolveSrc tag = "") :
    toCandidate tag = none ∧ isSignificant tag = false := by
  unfold toCandidate isSignificant
  simp [h]

theorem resolveSrc_eq_empty {tag : Node} (h1 : (tag.Attr "src").1 = "")
    (h2 : (tag.Attr "data-src").1 = "") (h3 : (tag.Attr "data-lazy-src").1 = "") :
    resolveSrc tag = "" := by
  unfold resolveSrc
  simp [h1, h2, h3]

/-- C15: an element whose `src`, `data-src` and `data-lazy-src` are all
absent or empty leaves the closure's variables as they are (it is no candidate
and is not counted, whatever its width, height and alt), and inserting it at
any position of a document leaves the result of `WebPageResolver` unchanged. -/
theorem WebPageResolver_insert_sourceless (pre post : List Node) (tag : Node)
    (h1 : (tag.Attr "src").1 = "") (h2 : (tag.Attr "data-src").1 = "")
    (h3 : (tag.Attr "data-lazy-src").1 = "") :
    WebPageResolver ⟨pre ++ tag :: post⟩ = WebPageResolver ⟨pre ++ post⟩ ∧
      (∀ st, scanStep (320 * 200) st tag = st) := by
  have he := resolveSrc_eq_empty h1 h2 h3
  constructor
  · exact WebPageResolver_congr
      (scanImgs_remove pre post tag (sourceless_inert he).1 (sourceless_inert he).2)
  · intro st
    unfold scanStep
    simp [he]

/-- Witness of C15: an image without source and with a declared surface of
100000, inserted between the two small images -/
theorem WebPageResolver_insert_sourceless_witness :
    (tagNoSource.Attr "src").1 = "" ∧ (tagNoSource.Attr "data-src").1 = "" ∧
      (tagNoSource.Attr "data-lazy-src").1 = "" ∧ surfaceOf tagNoSource = 100000 ∧
      WebPageResolver ⟨[tagMedia] ++ tagNoSource :: [tagPlain]⟩
        = WebPageResolver ⟨[tagMedia] ++ [tagPlain]⟩ ∧
      WebPageResolver ⟨[tagMedia] ++ [tagPlain]⟩
        = "http://a/media.jpg" :=
  ⟨by decide, by decide, by decide, by decide,
    (WebPageResolver_insert_sourceless [tagMedia] [tagPlain]
      tagNoSource (by decide) (by decide) (by decide)).1,
    by decide⟩

/-- C18: an image element of negative score whose surface is at most 64000
is no candidate and is not counted, so that removing it from a document leaves
the result of `WebPageResolver` unchanged. -/
theorem WebPageResolver_remove_negative_small (pre post : List Node) (tag : Node)
    (hscore : score tag < 0) (hsurf : surfaceOf tag ≤ 320 * 200) :
    WebPageResolver ⟨pre ++ post⟩ = WebPageResolver ⟨pre ++ tag :: post⟩ ∧
      (∀ st, scanStep (320 * 200) st tag = st) := by
  have hc : toCandidate tag = none := by
    unfold toCandidate
    by_cases hsrc : resolveSrc tag = ""
    · simp [hsrc]
    · simp [hsrc, not_le.mpr hscore]
  have hs : isSignificant tag = false := by
    unfold isSignificant
    have : ¬ (64000 : Int) < surfaceOf tag := not_lt.mpr hsurf
    simp [this]
  constructor
  · exact (WebPageResolver_congr (scanImgs_remove pre post tag hc hs)).symm
  · intro st
    by_cases hsrc : resolveSrc tag = ""
    · unfold scanStep
      simp [hsrc]
    · rw [scanStep_of_src hsrc, hc]
      have : ¬ (64000 : Int) < surfaceOf tag := not_lt.mpr hsurf
      simp [this]

/-- Witness of C18: a logo of surface 50 removed from between the two small
images -/
theorem WebPageResolver_remove_negative_small_witness :
    score tagSmallLogo < 0 ∧ surfaceOf tagSmallLogo ≤ 320 * 200 ∧
      WebPageResolver ⟨[tagMedia] ++ [tagPlain]⟩
        = WebPageResolver
            ⟨[tagMedia] ++ tagSmallLogo :: [tagPlain]⟩ :=
  ⟨by decide, by decide,
    (WebPageResolver_remove_negative_small [tagMedia]
      [tagPlain] tagSmallLogo (by decide) (by decide)).1⟩

/-! ### Order of the rule table -/

theorem ruleSum_perm {rs rs' : List (Re × Int)} (h : rs.Perm rs') (src : String) :
    ruleSum rs src = ruleSum rs' src := by
  induction h with
  | nil => rfl
  | cons r _ ih => rw [ruleSum_cons, ruleSum_cons, ih]
  | swap r r' l => rw [ruleSum_cons, ruleSum_cons, ruleSum_cons, ruleSum_cons]; ring
  | trans _ _ ih1 ih2 => exact ih1.trans ih2

/-- C16: for every source string the sum of the weights of the matching
rules is the same for every ordering of the rule table, and `score` computed
with the table visited in any order is the `score` of the tag. -/
theorem score_order_independent (order : List (Re × Int)) (h : rules.Perm order)
    (src : String) (tag : Node) :
    ruleSum order src = ruleSum rules src ∧ scoreIn order tag = score tag := by
  have hsum : ∀ s, ruleSum order s = ruleSum rules s := fun s => (ruleSum_perm h s).symm
  refine ⟨hsum src, ?_⟩
  rw [← scoreIn_rules]
  unfold scoreIn
  simp only [hsum]

/-- Witness of C16: the table visited backwards -/
theorem score_order_independent_witness :
    rules.Perm rules.reverse ∧
      ruleSum rules.reverse "a/media.jpg" = ruleSum rules "a/media.jpg" ∧
      scoreIn rules.reverse tagThumbnailAlt = score tagThumbnailAlt :=
  ⟨(List.reverse_perm rules).symm,
    score_order_independent rules.reverse (List.reverse_perm rules).symm "a/media.jpg"
      tagThumbnailAlt⟩

/-! ### The last social candidate -/

theorem foldl_append_eq_flatten {α β : Type} (f : α → List β) (l : List α) (init : List β) :
    l.foldl (fun acc t => acc ++ f t) init = init ++ (l.map f).flatten := by
  induction l generalizing init with
  | nil => simp
  | cons x xs ih => rw [List.foldl_cons, ih]; simp

/-- C17: when the scan yields two or more candidates, `OpenGraphResolver`
returns the normalised url of the last one in iteration order (the `meta`
elements, then the `link` elements, and for one element the tag specs in table
order): the scoring loop leaves the slice as it is, every stored score is 0,
and neither the family nor `large|big` has any influence. -/
theorem OpenGraphResolver_last_candidate (a : Article) (l : List ogImage) (x : ogImage)
    (h : scanMeta a = l ++ [x]) (hlen : 2 ≤ (scanMeta a).length) :
    OpenGraphResolver a = httpPrefix x.url ∧
      scoreLoop (scanMeta a) = scanMeta a ∧
      (∀ c ∈ scanMeta a, c.score = 0) ∧
      scanMeta a = ((Find a.Doc "meta" ++ Find a.Doc "link").map ogMatches).flatten := by
  refine ⟨?_, scoreLoop_eq _, scanMeta_score_zero a, ?_⟩
  · unfold OpenGraphResolver openGraphTopImage
    split
    · rename_i img himg
      rw [himg] at hlen
      simp at hlen
    · rw [scoreLoop_eq, h, findBestImageFromScore_last]
      intro c hc
      rw [← h] at hc
      exact scanMeta_score_zero a c hc
  · unfold scanMeta Union
    rw [foldl_append_eq_flatten]
    simp

/-- Witness of C17: four candidates; the `link` element stands first in the
document and last in the selection, the Open Graph url contains `big`, the
Twitter card yields two candidates, and the url of the link is returned -/
theorem OpenGraphResolver_last_candidate_witness :
    scanMeta docThreeSocial =
        [{ url := "big.jpg", tpe := "facebook", score := 0 },
         { url := "v.jpg", tpe := "twitter", score := 0 },
         { url := "c.jpg", tpe := "twitter", score := 0 }] ++
        [{ url := "l.jpg", tpe := "facebook", score := 0 }] ∧
      2 ≤ (scanMeta docThreeSocial).length ∧
      OpenGraphResolver docThreeSocial = httpPrefix "l.jpg" ∧
      OpenGraphResolver docThreeSocial = "http://l.jpg" :=
  ⟨by decide, by decide,
    (OpenGraphResolver_last_candidate docThreeSocial
      [{ url := "big.jpg", tpe := "facebook", score := 0 },
       { url := "v.jpg", tpe := "twitter", score := 0 },
       { url := "c.jpg", tpe := "twitter", score := 0 }]
      { url := "l.jpg", tpe := "facebook", score := 0 } (by decide) (by decide)).1,
    by decide⟩

end Goose
